
import Mathlib

/-!
Verification of the `dynamic-ipset` repository against its specification.

The Python sources under `src/dynamic_ipset/` are shallowly embedded:
strings are `String`/`List Char`, machine integers are `Nat`, fallible
functions return `Option`/`Except`, and the kernel ipset state mutated by
the `ipset` subprocess calls is threaded explicitly as an association
list from set names to set data.  The address-parsing behaviour of the
Python standard library module `ipaddress` (used by `validator.py`) is
embedded from the library's documented semantics: dotted-quad IPv4 with
1-3 digit octets, no leading zeros, values up to 255; RFC-4291 IPv6
text with at most one `::`, 1-4 hex digits per group and an optional
embedded dotted-quad tail; integer prefix lengths written in decimal.
(IPv6 zone identifiers and dotted-netmask prefixes, which the claims do
not touch, are not modelled.)
-/

/-! ## Character utilities -/

/-- The ASCII whitespace characters removed by Python's `str.strip()`
and recognised by the regex class `\s` (the claims involve only ASCII
input, so the wider Unicode classes are not modelled). -/
def isSpaceC (c : Char) : Bool :=
  c = ' ' || c = '\t' || c = '\n' || c = '\r' || c = '\x0b' || c = '\x0c'

/-- Python `str.strip()` on a list of characters. -/
def trimL (l : List Char) : List Char :=
  ((l.dropWhile isSpaceC).reverse.dropWhile isSpaceC).reverse

/-- Python `str.split(sep)` for a single-character separator: splits at
every occurrence, keeping empty pieces; `split` of the empty string is
`[[]]`. -/
def splitOnCharL (c : Char) : List Char → List (List Char)
  | [] => [[]]
  | x :: xs =>
    let r := splitOnCharL c xs
    if x = c then [] :: r else (x :: r.headI) :: r.tail

/-- Joining pieces with a single-character separator (inverse of
`splitOnCharL` on separator-free pieces). -/
def joinSep (c : Char) : List (List Char) → List Char
  | [] => []
  | [p] => p
  | p :: q :: t => p ++ c :: joinSep c (q :: t)

/-! ## Decimal and hexadecimal digit strings

Models Python's `'%d'` / `'%x'` formatting and `int(s, 10)` / `int(s, 16)`
parsing as used by `ipaddress` for octets, hextets and prefix lengths. -/

/-- The character for a single decimal/hex digit value (lowercase, as
produced by Python's `'%x'`). -/
def digitCharHex (d : Nat) : Char :=
  if d < 10 then Char.ofNat (48 + d) else Char.ofNat (87 + d)

def decCharsAux : Nat → Nat → List Char
  | 0, _ => []
  | fuel + 1, n => if n = 0 then [] else decCharsAux fuel (n / 10) ++ [digitCharHex (n % 10)]

/-- Decimal rendering of a natural number, as Python `str(n)`. -/
def decRender (n : Nat) : List Char :=
  if n = 0 then ['0'] else decCharsAux (n + 1) n

def hexCharsAux : Nat → Nat → List Char
  | 0, _ => []
  | fuel + 1, n => if n = 0 then [] else hexCharsAux fuel (n / 16) ++ [digitCharHex (n % 16)]

/-- Lowercase hexadecimal rendering without leading zeros, as Python `'%x' % n`. -/
def hexRender (n : Nat) : List Char :=
  if n = 0 then ['0'] else hexCharsAux (n + 1) n

def isHexDigitC (c : Char) : Bool :=
  c.isDigit || ('a' ≤ c && c ≤ 'f') || ('A' ≤ c && c ≤ 'F')

/-- Numeric value of a decimal or hexadecimal digit character. -/
def digitValHex (c : Char) : Nat :=
  if c.isDigit then c.toNat - 48
  else if 'a' ≤ c && c ≤ 'f' then c.toNat - 87
  else c.toNat - 55

/-- `int(s, 10)` on a known-decimal-digit string. -/
def decVal (l : List Char) : Nat :=
  l.foldl (fun a c => a * 10 + digitValHex c) 0

/-- `int(s, 16)` on a known-hex-digit string. -/
def hexVal (l : List Char) : Nat :=
  l.foldl (fun a c => a * 16 + digitValHex c) 0

/-- Python `ipaddress._parse_octet`: 1-3 decimal digits, no leading
zeros, value at most 255. -/
def parseOctet (l : List Char) : Option Nat :=
  if l.isEmpty then none
  else if ¬ (l.all Char.isDigit) then none
  else if 3 < l.length then none
  else if l.headI = '0' ∧ l.length ≠ 1 then none
  else if 255 < decVal l then none
  else some (decVal l)

/-- Python `IPv4Address._ip_int_from_string`: exactly four dotted octets,
combined big-endian. -/
def parseIPv4 (l : List Char) : Option Nat :=
  match splitOnCharL '.' l with
  | [a, b, c, d] => do
    let x ← parseOctet a
    let y ← parseOctet b
    let z ← parseOctet c
    let w ← parseOctet d
    pure (((x * 256 + y) * 256 + z) * 256 + w)
  | _ => none

/-- The four big-endian bytes of an IPv4 value. -/
def octetsV4 (v : Nat) : List Nat :=
  [v / 16777216 % 256, v / 65536 % 256, v / 256 % 256, v % 256]

/-- Python `IPv4Address._string_from_ip_int`: dotted-quad rendering. -/
def renderIPv4 (v : Nat) : List Char :=
  joinSep '.' ((octetsV4 v).map decRender)

/-! ## IPv6 addresses

Models `ipaddress.IPv6Address` text parsing (`_parse_hextet` /
`_ip_int_from_string`) and rendering (`_string_from_ip_int` /
`_compress_hextets`). -/

/-- The eight big-endian 16-bit groups of an IPv6 value. -/
def hextetsV6 (v : Nat) : List Nat :=
  [v / 2 ^ 112 % 65536, v / 2 ^ 96 % 65536, v / 2 ^ 80 % 65536, v / 2 ^ 64 % 65536,
   v / 2 ^ 48 % 65536, v / 2 ^ 32 % 65536, v / 2 ^ 16 % 65536, v % 65536]

/-- The scanning loop of Python `_compress_hextets`: finds the first
longest run of `"0"` groups.  Arguments: remaining groups, current
index, current-run start and length, best-run start and length. -/
def bzrAux : List (List Char) → Nat → Nat → Nat → Nat → Nat → Nat × Nat
  | [], _, _, _, bs, bl => (bs, bl)
  | h :: t, i, cs, cl, bs, bl =>
    if h = ['0'] then
      if bl < cl + 1 then
        bzrAux t (i + 1) (if cl = 0 then i else cs) (cl + 1) (if cl = 0 then i else cs) (cl + 1)
      else bzrAux t (i + 1) (if cl = 0 then i else cs) (cl + 1) bs bl
    else bzrAux t (i + 1) 0 0 bs bl

def bestZeroRun (hs : List (List Char)) : Nat × Nat := bzrAux hs 0 0 0 0 0

/-- Python `_compress_hextets`: if the best run of zero groups has
length at least 2, splice in an empty marker (plus boundary markers when
the run touches either end of the list). -/
def compressHextets (hs : List (List Char)) : List (List Char) :=
  let br := bestZeroRun hs
  if 1 < br.2 then
    (if br.1 = 0 then [[]] else []) ++ hs.take br.1 ++ [[]] ++
      (if br.1 + br.2 = hs.length then [[]] else hs.drop (br.1 + br.2))
  else hs

/-- Python `IPv6Address._string_from_ip_int`. -/
def renderIPv6 (v : Nat) : List Char :=
  joinSep ':' (compressHextets ((hextetsV6 v).map hexRender))

/-- Python `ipaddress._parse_hextet`: 1-4 hex digits. -/
def parseHextet (l : List Char) : Option Nat :=
  if ¬ l.all isHexDigitC then none
  else if l.isEmpty then none
  else if 4 < l.length then none
  else some (hexVal l)

/-- The loop `ip_int = ip_int << 16 | parse_hextet(part)`. -/
def foldHextets (acc : Nat) : List (List Char) → Option Nat
  | [] => some acc
  | p :: ps =>
    match parseHextet p with
    | none => none
    | some h => foldHextets (acc * 65536 + h) ps

/-- Left fold combining big-endian 16-bit groups into one value. -/
def combineHex (gs : List Nat) : Nat :=
  gs.foldl (fun a g => a * 65536 + g) 0

/-- The part of Python `IPv6Address._ip_int_from_string` that follows
the `:`-split and the embedded dotted-quad expansion: locate the
at-most-one `::` marker and fold the groups around it. -/
def parseIPv6Main (parts : List (List Char)) : Option Nat :=
  if 9 < parts.length then none
  else
    let interior := (parts.drop 1).dropLast
    match interior.findIdx? (fun p => p.isEmpty) with
    | some idx =>
      if 1 < (interior.filter (fun p => p.isEmpty)).length then none
      else
        let si := idx + 1
        if (parts.headI).isEmpty ∧ si ≠ 1 then none
        else
          let hiParts := if (parts.headI).isEmpty then [] else parts.take si
          let nlo := parts.length - si - 1
          if (parts.getLastD []).isEmpty ∧ nlo ≠ 1 then none
          else
            let loParts := if (parts.getLastD []).isEmpty then [] else parts.drop (si + 1)
            if 8 ≤ hiParts.length + loParts.length then none
            else
              let skipped := 8 - hiParts.length - loParts.length
              match foldHextets 0 hiParts with
              | none => none
              | some hi => foldHextets (hi * 65536 ^ skipped) loParts
    | none =>
      if parts.length ≠ 8 then none
      else if (parts.headI).isEmpty then none
      else if (parts.getLastD []).isEmpty then none
      else foldHextets 0 parts

/-- Python `IPv6Address._ip_int_from_string`: split on `:`, expand an
embedded dotted-quad tail, then fold the groups. -/
def parseIPv6 (l : List Char) : Option Nat :=
  let parts0 := splitOnCharL ':' l
  if parts0.length < 3 then none
  else
    if (parts0.getLastD []).contains '.' then
      match parseIPv4 (parts0.getLastD []) with
      | none => none
      | some v4 =>
        parseIPv6Main (parts0.dropLast ++ [hexRender (v4 / 65536), hexRender (v4 % 65536)])
    else parseIPv6Main parts0

/-- Position `j` of `hs` holds the rendered hextet `"0"`. -/
def IsZeroAt (hs : List (List Char)) (j : Nat) : Prop :=
  j < hs.length ∧ hs.getD j [] = ['0']

/-- Every piece of a rendered-and-compressed hextet list is either an
empty marker or a rendered hextet. -/
def HexPieces (Q : List (List Char)) : Prop :=
  ∀ p ∈ Q, p = [] ∨ ∃ g, p = hexRender g

/-! ## validator.py -/

/-- A parsed IP address with its family, as produced by Python
`ipaddress.ip_address` / the address part of `ip_network`. -/
inductive IPAddr where
  | v4 (v : Nat)
  | v6 (v : Nat)
deriving DecidableEq, Repr

/-- Python `ipaddress.ip_address(s)`: try IPv4 first, then IPv6.
(IPv6 zone identifiers are not modelled.) -/
def ip_address_model (l : List Char) : Option IPAddr :=
  match parseIPv4 l with
  | some v => some (.v4 v)
  | none =>
    match parseIPv6 l with
    | some v => some (.v6 v)
    | none => none

/-- Python `ipaddress._prefix_from_prefix_string`: a non-empty all-digit
string whose value is at most the family's maximum prefix length.
(The alternative dotted-netmask/hostmask spellings accepted for IPv4 are
not modelled; the claims do not involve them.) -/
def parsePrefixLen (maxLen : Nat) (l : List Char) : Option Nat :=
  if l.isEmpty then none
  else if ¬ l.all Char.isDigit then none
  else
    let n := decVal l
    if maxLen < n then none else some n

/-- `int(address) & int(netmask)` for a netmask with `k` zero host bits:
clearing the low `k` bits. -/
def maskValue (v k : Nat) : Nat := v / 2 ^ k * 2 ^ k

/-- Python `ipaddress.ip_network((addr, prefix), strict=False)`: try
`IPv4Network` then `IPv6Network`; the network address is the given
address with its host bits masked off. -/
def ip_network_model (a p : List Char) : Option (IPAddr × Nat) :=
  match parseIPv4 a, parsePrefixLen 32 p with
  | some v, some pl => some (.v4 (maskValue v (32 - pl)), pl)
  | _, _ =>
    match parseIPv6 a, parsePrefixLen 128 p with
    | some v, some pl => some (.v6 (maskValue v (128 - pl)), pl)
    | _, _ => none

/-- `validator.validate_cidr`.  Error messages follow the source
f-strings; the trailing ` - {e}` detail of the `Invalid CIDR` message
(the wrapped `ipaddress` exception text) is not modelled. -/
def validate_cidr (cidr : String) : Except String (String × Nat × String) :=
  let t := trimL cidr.data
  if t.contains '/' = false then
    match ip_address_model t with
    | some (.v4 v) => .ok (⟨renderIPv4 v⟩, 32, "inet")
    | some (.v6 v) => .ok (⟨renderIPv6 v⟩, 128, "inet6")
    | none => .error ("Invalid IP address: " ++ (⟨t⟩ : String))
  else
    match splitOnCharL '/' t with
    | [a, p] =>
      match ip_network_model a p with
      | some (.v4 net, pl) => .ok (⟨renderIPv4 net⟩, pl, "inet")
      | some (.v6 net, pl) => .ok (⟨renderIPv6 net⟩, pl, "inet6")
      | none => .error ("Invalid CIDR: " ++ (⟨t⟩ : String))
    | _ => .error ("Invalid CIDR: " ++ (⟨t⟩ : String))

/-- The sequential inline-comment stripping shared by
`validator.parse_ip_entry` and `fetcher._split_entries`:
`for comment_char in ("#", ";"): if comment_char in entry:
entry = entry.split(comment_char)[0].strip()`. -/
def stripInlineComments (l : List Char) : List Char :=
  let l1 := if l.contains '#' then trimL ((splitOnCharL '#' l).headI) else l
  if l1.contains ';' then trimL ((splitOnCharL ';' l1).headI) else l1

/-- `validator.parse_ip_entry`. -/
def parse_ip_entry (entry : String) : Except String (String × String) :=
  let e := stripInlineComments (trimL entry.data)
  if e.isEmpty then .error "Empty entry"
  else
    match validate_cidr ⟨e⟩ with
    | .error m => .error m
    | .ok (addr, pl, fam) => .ok (addr ++ "/" ++ (⟨decRender pl⟩ : String), fam)

/-- `[a-zA-Z]`. -/
def isNameHeadChar (c : Char) : Bool :=
  ('a' ≤ c && c ≤ 'z') || ('A' ≤ c && c ≤ 'Z')

/-- `[a-zA-Z0-9_-]`. -/
def isNameTailChar (c : Char) : Bool :=
  isNameHeadChar c || c.isDigit || c = '_' || c = '-'

/-- The anchored body of `constants.LIST_NAME_PATTERN`
(`[a-zA-Z][a-zA-Z0-9_-]{0,30}` matched against a whole string). -/
def lnameBody (l : List Char) : Bool :=
  match l with
  | [] => false
  | c :: cs => isNameHeadChar c && cs.length ≤ 30 && cs.all isNameTailChar

/-- `re.match(LIST_NAME_PATTERN, s)`: Python's `$` also matches just
before one trailing newline, so a single trailing `'\n'` is discounted
before the anchored body is checked. -/
def matchesListNamePattern (l : List Char) : Bool :=
  lnameBody (if l.getLast? = some '\n' then l.dropLast else l)

/-- `validator.validate_list_name`. -/
def validate_list_name (name : String) : Except String Bool :=
  if name = "" then .error "List name cannot be empty"
  else if matchesListNamePattern name.data then .ok true
  else
    .error ("Invalid list name '" ++ name ++ "'. Must start with letter, "
      ++ "contain only alphanumeric/underscore/hyphen, max 31 chars.")

/-! ## constants.py -/

def DEFAULT_IPSET_TYPE : String := "hash:net"
def DEFAULT_IPSET_FAMILY : String := "inet"
def DEFAULT_MAX_ENTRIES : Nat := 65536
def DEFAULT_PERIODIC : String := "*-*-* 0/3:00:00"

/-! ## exceptions.py and the fetch error messages

`exceptions.py` defines one class per error kind; `FetchError` is a
single class and the three transport failures in `IPListFetcher.fetch`
are told apart only by the message text. -/

/-- The exception classes of `exceptions.py` (each a subclass of
`DynamicIPSetError`). -/
inductive ExcClass where
  | dynamicIPSet
  | config
  | ipset
  | fetch
  | validation
  | systemd
deriving DecidableEq, Repr

/-- The transport-level failures distinguished by the `except` arms of
`IPListFetcher.fetch`. -/
inductive FetchFailure where
  | httpError (code : Nat) (url : String)
  | urlError (reason : String) (url : String)
  | timeout (url : String)
deriving DecidableEq, Repr

/-- The exception class `IPListFetcher.fetch` raises for each failure:
always `FetchError`. -/
def fetchRaisedClass : FetchFailure → ExcClass :=
  fun _ => .fetch

/-- The message of the `FetchError` raised by `IPListFetcher.fetch`. -/
def fetchErrorMessage : FetchFailure → String
  | .httpError code url => "HTTP error " ++ (⟨decRender code⟩ : String) ++ ": " ++ url
  | .urlError reason url => "URL error: " ++ reason ++ " - " ++ url
  | .timeout url => "Timeout fetching " ++ url

/-! ## ipset.py — kernel ipset state model

The `ipset` binary's kernel state is an association list from set names
to set data; every `_run` invocation appends the issued command to a
trace.  Failures that depend on resources outside the model (a `create`
that hits a kernel limit, a `restore` batch that is rejected partway)
are driven by an `Oracle`; `destroy` of an existing set and `swap` of
two same-shaped existing sets are modelled as succeeding, since the sets
this code destroys and swaps are never referenced by other kernel
objects. -/

structure SetData where
  stype : String
  family : String
  maxElem : Nat
  members : List String
deriving DecidableEq, Repr

/-- Kernel ipset state: name-keyed sets. -/
abbrev KState := List (String × SetData)

/-- Control-plane commands issued through `IPSetManager._run`. -/
inductive Cmd where
  | listName (n : String)
  | create (n t f : String) (m : Nat)
  | destroy (n : String)
  | restore (lines : List String)
  | swap (a b : String)
deriving DecidableEq, Repr

/-- The exceptions `ipset.py` raises: `ValidationError` from
`validate_list_name`, `IPSetError` from failed commands. -/
inductive Err where
  | validation (msg : String)
  | ipset (msg : String)
deriving DecidableEq, Repr

/-- Failure oracle for the command outcomes the model cannot decide:
whether a `create` of the given name fails, whether the `restore` batch
fails, how many entries a failed batch had already added (the batch is
not per-entry transactional), and whether `swap` fails. -/
structure Oracle where
  createFails : String → Bool
  restoreFails : Bool
  restoreLoaded : Nat
  swapFails : Bool

/-- Replace the data stored under name `n`. -/
def setStore (k : KState) (n : String) (d : SetData) : KState :=
  k.map (fun p => if p.1 = n then (n, d) else p)

/-- `IPSetManager.exists`: `ipset list <name> -n` with `check=False`. -/
def existsSet (name : String) (k : KState) : Bool × List Cmd :=
  ((k.lookup name).isSome, [.listName name])

/-- `IPSetManager.create`. -/
def createSet (o : Oracle) (name stype family : String) (maxElem : Nat) (k : KState) :
    Except Err Bool × KState × List Cmd :=
  match validate_list_name name with
  | .error m => (.error (.validation m), k, [])
  | .ok _ =>
    let (ex, tr) := existsSet name k
    if ex then (.ok false, k, tr)
    else if o.createFails name then
      (.error (.ipset "ipset command failed: create"), k,
        tr ++ [.create name stype family maxElem])
    else
      (.ok true, (name, ⟨stype, family, maxElem, []⟩) :: k,
        tr ++ [.create name stype family maxElem])

/-- `IPSetManager.destroy`. -/
def destroySet (name : String) (k : KState) : Except Err Bool × KState × List Cmd :=
  match validate_list_name name with
  | .error m => (.error (.validation m), k, [])
  | .ok _ =>
    let (ex, tr) := existsSet name k
    if ex then
      (.ok true, k.filter (fun p => p.1 ≠ name), tr ++ [.destroy name])
    else (.ok false, k, tr)

/-- `add <name> <entry> -exist` membership update. -/
def addEntryMem (ms : List String) (e : String) : List String :=
  if e ∈ ms then ms else ms ++ [e]

/-- The `restore` input built by `IPSetManager.add_many`. -/
def restoreLines (name : String) (entries : List String) : List String :=
  entries.map (fun e => "add " ++ name ++ " " ++ e ++ " -exist")

def applyAdds (d : SetData) (es : List String) : SetData :=
  { d with members := es.foldl addEntryMem d.members }

/-- `IPSetManager.add_many`: one `restore` batch.  On oracle-driven
failure the first `o.restoreLoaded` entries have already been applied. -/
def add_many (o : Oracle) (name : String) (entries : List String) (k : KState) :
    Except Err Nat × KState × List Cmd :=
  if entries.isEmpty then (.ok 0, k, [])
  else
    match k.lookup name with
    | none =>
      (.error (.ipset "ipset command failed: restore"), k,
        [.restore (restoreLines name entries)])
    | some d =>
      if o.restoreFails then
        (.error (.ipset "ipset command failed: restore"),
          setStore k name (applyAdds d (entries.take o.restoreLoaded)),
          [.restore (restoreLines name entries)])
      else
        (.ok entries.length, setStore k name (applyAdds d entries),
          [.restore (restoreLines name entries)])

/-- `ipset swap a b`: exchanges the contents of two existing sets of the
same shape. -/
def swapSets (o : Oracle) (a b : String) (k : KState) :
    Except Err Unit × KState × List Cmd :=
  match k.lookup a, k.lookup b with
  | some da, some db =>
    if o.swapFails ∨ da.stype ≠ db.stype ∨ da.family ≠ db.family then
      (.error (.ipset "ipset command failed: swap"), k, [.swap a b])
    else (.ok (), setStore (setStore k a db) b da, [.swap a b])
  | _, _ => (.error (.ipset "ipset command failed: swap"), k, [.swap a b])

/-- `temp_name = f"{name[:26]}_tmp"` in `IPSetManager.update`. -/
def stagingName (name : String) : String :=
  ⟨name.data.take 26 ++ ['_', 't', 'm', 'p']⟩

/-- The `except Exception` cleanup of `IPSetManager.update`: destroy the
staging set if it exists, swallowing only `IPSetError` from the destroy,
then re-raise the original error. -/
def cleanupTemp (e : Err) (temp : String) (k : KState) (tr : List Cmd) :
    Except Err Nat × KState × List Cmd :=
  let (ex, tA) := existsSet temp k
  if ex then
    match destroySet temp k with
    | (.ok _, k', t') => (.error e, k', tr ++ tA ++ t')
    | (.error (.ipset _), k', t') => (.error e, k', tr ++ tA ++ t')
    | (.error (.validation m), k', t') => (.error (.validation m), k', tr ++ tA ++ t')
  else (.error e, k, tr ++ tA)

/-- The `try` block of `IPSetManager.update`: create target if missing,
reap a stale staging set, create and bulk-load the staging set, swap,
destroy the staging set.  Errors propagate with the state and the trace
accumulated so far. -/
def updateTry (o : Oracle) (name temp : String) (entries : List String)
    (stype family : String) (maxElem : Nat) (k : KState) :
    Except Err Nat × KState × List Cmd :=
  match createSet o name stype family maxElem k with
  | (.error e, k1, t1) => (.error e, k1, t1)
  | (.ok _, k1, t1) =>
    let (ex, tA) := existsSet temp k1
    match (if ex then destroySet temp k1
           else ((.ok false : Except Err Bool), k1, ([] : List Cmd))) with
    | (.error e, k2, t2) => (.error e, k2, t1 ++ tA ++ t2)
    | (.ok _, k2, t2) =>
      match createSet o temp stype family maxElem k2 with
      | (.error e, k3, t3) => (.error e, k3, t1 ++ tA ++ t2 ++ t3)
      | (.ok _, k3, t3) =>
        match (if entries.isEmpty then ((.ok 0 : Except Err Nat), k3, ([] : List Cmd))
               else add_many o temp entries k3) with
        | (.error e, k4, t4) => (.error e, k4, t1 ++ tA ++ t2 ++ t3 ++ t4)
        | (.ok _, k4, t4) =>
          match swapSets o temp name k4 with
          | (.error e, k5, t5) => (.error e, k5, t1 ++ tA ++ t2 ++ t3 ++ t4 ++ t5)
          | (.ok _, k5, t5) =>
            match destroySet temp k5 with
            | (.error e, k6, t6) => (.error e, k6, t1 ++ tA ++ t2 ++ t3 ++ t4 ++ t5 ++ t6)
            | (.ok _, k6, t6) =>
              (.ok entries.length, k6, t1 ++ tA ++ t2 ++ t3 ++ t4 ++ t5 ++ t6)

/-- `IPSetManager.update`: validate, run the `try` block, and on any
failure destroy the staging set (swallowing a failed destroy) before
re-raising the original error. -/
def updateSet (o : Oracle) (name : String) (entries : List String)
    (stype family : String) (maxElem : Nat) (k : KState) :
    Except Err Nat × KState × List Cmd :=
  match validate_list_name name with
  | .error m => (.error (.validation m), k, [])
  | .ok _ =>
    match updateTry o name (stagingName name) entries stype family maxElem k with
    | (.error e, kX, tX) => cleanupTemp e (stagingName name) kX tX
    | (.ok n, kX, tX) => (.ok n, kX, tX)

/-! ## config.py data model and cli.py update path -/

/-- `config.ListConfig`. -/
structure ListConfig where
  name : String
  source_url : String
  periodic : String := DEFAULT_PERIODIC
  ipset_type : String := DEFAULT_IPSET_TYPE
  family : String := DEFAULT_IPSET_FAMILY
  max_entries : Nat := DEFAULT_MAX_ENTRIES
  enabled : Bool := true
deriving DecidableEq, Repr

/-- `CLI._do_update`, given the `(entries, errors)` result of
`IPListFetcher.fetch` (the transport I/O being external to the model):
warn about parse errors, return 0 untouched when there are no valid
entries, otherwise run the atomic set update. -/
def cli_do_update (o : Oracle) (cfg : ListConfig) (fetched : List String × List String)
    (k : KState) : Except Err Int × KState × List Cmd :=
  let entries := fetched.1
  if entries.isEmpty then (.ok 0, k, [])
  else
    match updateSet o cfg.name entries cfg.ipset_type cfg.family cfg.max_entries k with
    | (.error e, k', tr) => (.error e, k', tr)
    | (.ok _, k', tr) => (.ok 0, k', tr)

/-! ## fetcher.py list parsing -/

/-- Python `str.splitlines` restricted to the line boundaries that can
occur in the claims' inputs (`\n`, `\r\n`, `\r`; the rarer Unicode
boundaries are not modelled). -/
def splitlinesAux : Nat → List Char → List Char → List (List Char)
  | _, [], acc => if acc.isEmpty then [] else [acc.reverse]
  | 0, _, _ => []
  | fuel + 1, '\r' :: '\n' :: rest, acc => acc.reverse :: splitlinesAux fuel rest []
  | fuel + 1, '\n' :: rest, acc => acc.reverse :: splitlinesAux fuel rest []
  | fuel + 1, '\r' :: rest, acc => acc.reverse :: splitlinesAux fuel rest []
  | fuel + 1, c :: rest, acc => splitlinesAux fuel rest (c :: acc)

def splitlinesL (l : List Char) : List (List Char) := splitlinesAux l.length l []

/-- `line.startswith(COMMENT_CHARS)` with `COMMENT_CHARS = ("#", ";")`. -/
def startsWithCommentChar (l : List Char) : Bool :=
  match l with
  | c :: _ => c = '#' || c = ';'
  | [] => false

/-- The regex class `[\s,]`. -/
def isSepChar (c : Char) : Bool := isSpaceC c || c = ','

/-- `[p.strip() for p in re.split(r"[\s,]+", line) if p.strip()]`: the
maximal separator-free runs of the line. -/
def splitSepRunsAux : List Char → List Char → List (List Char)
  | [], acc => if acc.isEmpty then [] else [acc.reverse]
  | c :: rest, acc =>
    if isSepChar c then
      if acc.isEmpty then splitSepRunsAux rest []
      else acc.reverse :: splitSepRunsAux rest []
    else splitSepRunsAux rest (c :: acc)

def splitSepRuns (l : List Char) : List (List Char) := splitSepRunsAux l []

/-- `IPListFetcher._split_entries`. -/
def split_entries (line : List Char) : List (List Char) :=
  let line := stripInlineComments line
  if line.isEmpty then []
  else if line.contains ' ' || line.contains ',' || line.contains '\t' then
    splitSepRuns line
  else [line]

/-- `f"Line {line_num}: {e}"`. -/
def fmtLineErr (n : Nat) (m : String) : String :=
  "Line " ++ (⟨decRender n⟩ : String) ++ ": " ++ m

/-- The body of `IPListFetcher._parse_ip_list`'s inner loop over the
parts of one line. -/
def parseParts (num : Nat) (parts : List (List Char)) (acc : List String × List String) :
    List String × List String :=
  parts.foldl
    (fun acc part =>
      if part.isEmpty then acc
      else
        match parse_ip_entry ⟨part⟩ with
        | .ok (e, _) => (acc.1 ++ [e], acc.2)
        | .error m => (acc.1, acc.2 ++ [fmtLineErr num m]))
    acc

/-- `IPListFetcher._parse_ip_list`: line-by-line, 1-indexed, skipping
blank and comment lines, accumulating entries and formatted errors. -/
def parse_ip_list (content : String) : List String × List String :=
  (List.enumFrom 1 (splitlinesL content.data)).foldl
    (fun acc p =>
      let line := trimL p.2
      if line.isEmpty then acc
      else if startsWithCommentChar line then acc
      else parseParts p.1 (split_entries line) acc)
    ([], [])

/-- The line-numbered tokens that `_parse_ip_list` feeds to
`parse_ip_entry`, in source order. -/
def lineTokens (line : List Char) : List (List Char) :=
  let t := trimL line
  if t.isEmpty then []
  else if startsWithCommentChar t then []
  else (split_entries t).filter (fun p => ¬ p.isEmpty)

def numberedTokens (content : String) : List (Nat × String) :=
  (List.enumFrom 1 (splitlinesL content.data)).flatMap
    (fun p => (lineTokens p.2).map (fun t => (p.1, (⟨t⟩ : String))))

/-- The entry a token contributes, when it canonicalizes. -/
def okEntryOf (p : Nat × String) : Option String :=
  match parse_ip_entry p.2 with
  | .ok (e, _) => some e
  | .error _ => none

/-- The formatted error a token contributes, when it fails. -/
def errEntryOf (p : Nat × String) : Option String :=
  match parse_ip_entry p.2 with
  | .ok _ => none
  | .error m => some (fmtLineErr p.1 m)

deriving instance DecidableEq for Except

/-! ## Theorems -/

theorem splitOnCharL_ne_nil (c : Char) (l : List Char) : splitOnCharL c l ≠ [] := by
  induction l with
  | nil => simp [splitOnCharL]
  | cons x xs ih =>
    simp only [splitOnCharL]
    split <;> simp

theorem splitOnCharL_of_not_mem (c : Char) (l : List Char) (h : ∀ x ∈ l, x ≠ c) :
    splitOnCharL c l = [l] := by
  induction l with
  | nil => rfl
  | cons x xs ih =>
    have hx : x ≠ c := h x (by simp)
    have hxs : splitOnCharL c xs = [xs] := ih fun y hy => h y (by simp [hy])
    simp [splitOnCharL, hx, hxs]

theorem splitOnCharL_append_cons (c : Char) (a b : List Char) (h : ∀ x ∈ a, x ≠ c) :
    splitOnCharL c (a ++ c :: b) = a :: splitOnCharL c b := by
  induction a with
  | nil => simp [splitOnCharL]
  | cons x xs ih =>
    have hx : x ≠ c := h x (by simp)
    have hxs := ih fun y hy => h y (by simp [hy])
    show splitOnCharL c (x :: (xs ++ c :: b)) = (x :: xs) :: splitOnCharL c b
    simp only [splitOnCharL, if_neg hx, hxs, List.headI, List.tail_cons]

theorem splitOnCharL_joinSep (c : Char) :
    ∀ ps : List (List Char), ps ≠ [] → (∀ p ∈ ps, ∀ x ∈ p, x ≠ c) →
      splitOnCharL c (joinSep c ps) = ps
  | [], hne, _ => absurd rfl hne
  | [p], _, h => splitOnCharL_of_not_mem c p (h p (by simp))
  | p :: q :: t, _, h => by
    have hrec := splitOnCharL_joinSep c (q :: t) (by simp)
      (fun r hr => h r (List.mem_cons_of_mem p hr))
    have hp : ∀ x ∈ p, x ≠ c := h p (List.mem_cons_self p _)
    show splitOnCharL c (p ++ c :: joinSep c (q :: t)) = p :: q :: t
    rw [splitOnCharL_append_cons c _ _ hp, hrec]

theorem trimL_eq_self (l : List Char) (h : ∀ x ∈ l, isSpaceC x = false) : trimL l = l := by
  unfold trimL
  have h1 : l.dropWhile isSpaceC = l := by
    cases l with
    | nil => rfl
    | cons x xs =>
      rw [List.dropWhile_cons_of_neg]
      simp [h x (by simp)]
  rw [h1]
  have h2 : l.reverse.dropWhile isSpaceC = l.reverse := by
    cases hr : l.reverse with
    | nil => rfl
    | cons x xs =>
      rw [List.dropWhile_cons_of_neg]
      have : x ∈ l := by
        have : x ∈ l.reverse := by rw [hr]; simp
        simpa using this
      simp [h x this]
  rw [h2, List.reverse_reverse]

theorem digitCharHex_isDigit (d : Nat) (h : d < 10) : (digitCharHex d).isDigit = true := by
  interval_cases d <;> decide

theorem digitCharHex_val (d : Nat) (h : d < 10) : digitValHex (digitCharHex d) = d := by
  interval_cases d <;> decide

theorem digitCharHex_isHex (d : Nat) (h : d < 16) : isHexDigitC (digitCharHex d) = true := by
  interval_cases d <;> decide

theorem digitCharHex_val16 (d : Nat) (h : d < 16) : digitValHex (digitCharHex d) = d := by
  interval_cases d <;> decide

theorem digitCharHex_eq_zeroChar (d : Nat) (h : d < 16) : digitCharHex d = '0' ↔ d = 0 := by
  interval_cases d <;> simp <;> decide

theorem decVal_append (a : List Char) (c : Char) :
    decVal (a ++ [c]) = decVal a * 10 + digitValHex c := by
  simp [decVal, List.foldl_append]

theorem hexVal_append (a : List Char) (c : Char) :
    hexVal (a ++ [c]) = hexVal a * 16 + digitValHex c := by
  simp [hexVal, List.foldl_append]

theorem decCharsAux_val : ∀ fuel n, n < 10 ^ fuel → decVal (decCharsAux fuel n) = n := by
  intro fuel
  induction fuel with
  | zero => intro n h; interval_cases n; rfl
  | succ f ih =>
    intro n h
    by_cases hn : n = 0
    · subst hn; simp [decCharsAux, decVal]
    · have hdiv : n / 10 < 10 ^ f := by
        have : n < 10 ^ f * 10 := by rw [← pow_succ]; exact h
        omega
      simp only [decCharsAux, if_neg hn, decVal_append, ih _ hdiv,
        digitCharHex_val (n % 10) (by omega)]
      omega

theorem hexCharsAux_val : ∀ fuel n, n < 16 ^ fuel → hexVal (hexCharsAux fuel n) = n := by
  intro fuel
  induction fuel with
  | zero => intro n h; interval_cases n; rfl
  | succ f ih =>
    intro n h
    by_cases hn : n = 0
    · subst hn; simp [hexCharsAux, hexVal]
    · have hdiv : n / 16 < 16 ^ f := by
        have : n < 16 ^ f * 16 := by rw [← pow_succ]; exact h
        omega
      simp only [hexCharsAux, if_neg hn, hexVal_append, ih _ hdiv,
        digitCharHex_val16 (n % 16) (by omega)]
      omega

theorem lt_ten_pow_self (n : Nat) : n < 10 ^ (n + 1) :=
  lt_trans (Nat.lt_succ_self n) (Nat.lt_pow_self (show (1:ℕ) < 10 by norm_num) (n + 1))

theorem lt_sixteen_pow_self (n : Nat) : n < 16 ^ (n + 1) :=
  lt_trans (Nat.lt_succ_self n) (Nat.lt_pow_self (show (1:ℕ) < 16 by norm_num) (n + 1))

theorem decVal_decRender (n : Nat) : decVal (decRender n) = n := by
  unfold decRender
  split
  · subst n; decide
  · exact decCharsAux_val (n + 1) n (lt_ten_pow_self n)

theorem hexVal_hexRender (n : Nat) : hexVal (hexRender n) = n := by
  unfold hexRender
  split
  · subst n; decide
  · exact hexCharsAux_val (n + 1) n (lt_sixteen_pow_self n)

theorem decCharsAux_all_digit : ∀ fuel n, ∀ c ∈ decCharsAux fuel n, c.isDigit = true := by
  intro fuel
  induction fuel with
  | zero => intro n c hc; simp [decCharsAux] at hc
  | succ f ih =>
    intro n c hc
    unfold decCharsAux at hc
    split at hc
    · simp at hc
    · simp only [List.mem_append, List.mem_singleton] at hc
      rcases hc with hc | hc
      · exact ih _ c hc
      · subst hc; exact digitCharHex_isDigit _ (by omega)

theorem hexCharsAux_all_hex : ∀ fuel n, ∀ c ∈ hexCharsAux fuel n, isHexDigitC c = true := by
  intro fuel
  induction fuel with
  | zero => intro n c hc; simp [hexCharsAux] at hc
  | succ f ih =>
    intro n c hc
    unfold hexCharsAux at hc
    split at hc
    · simp at hc
    · simp only [List.mem_append, List.mem_singleton] at hc
      rcases hc with hc | hc
      · exact ih _ c hc
      · subst hc; exact digitCharHex_isHex _ (by omega)

theorem decRender_all_digit (n : Nat) : ∀ c ∈ decRender n, c.isDigit = true := by
  intro c hc
  unfold decRender at hc
  split at hc
  · simp at hc; subst hc; decide
  · exact decCharsAux_all_digit _ _ c hc

theorem hexRender_all_hex (n : Nat) : ∀ c ∈ hexRender n, isHexDigitC c = true := by
  intro c hc
  unfold hexRender at hc
  split at hc
  · simp at hc; subst hc; decide
  · exact hexCharsAux_all_hex _ _ c hc

theorem decCharsAux_length : ∀ fuel k n, n < 10 ^ k → (decCharsAux fuel n).length ≤ k := by
  intro fuel
  induction fuel with
  | zero => intro k n _; simp [decCharsAux]
  | succ f ih =>
    intro k n h
    unfold decCharsAux
    split
    · simp
    · match k with
      | 0 => omega
      | k' + 1 =>
        have hdiv : n / 10 < 10 ^ k' := by
          have : n < 10 ^ k' * 10 := by rw [← pow_succ]; exact h
          omega
        have := ih k' (n / 10) hdiv
        simp only [List.length_append, List.length_singleton]
        omega

theorem hexCharsAux_length : ∀ fuel k n, n < 16 ^ k → (hexCharsAux fuel n).length ≤ k := by
  intro fuel
  induction fuel with
  | zero => intro k n _; simp [hexCharsAux]
  | succ f ih =>
    intro k n h
    unfold hexCharsAux
    split
    · simp
    · match k with
      | 0 => omega
      | k' + 1 =>
        have hdiv : n / 16 < 16 ^ k' := by
          have : n < 16 ^ k' * 16 := by rw [← pow_succ]; exact h
          omega
        have := ih k' (n / 16) hdiv
        simp only [List.length_append, List.length_singleton]
        omega

theorem decRender_length_le (n k : Nat) (hk : 0 < k) (h : n < 10 ^ k) :
    (decRender n).length ≤ k := by
  unfold decRender
  split
  · simpa using hk
  · exact decCharsAux_length _ k n h

theorem hexRender_length_le (n : Nat) (h : n < 65536) : (hexRender n).length ≤ 4 := by
  unfold hexRender
  split
  · simp
  · exact hexCharsAux_length _ 4 n (by norm_num; omega)

theorem decCharsAux_ne_nil (fuel n : Nat) (hn : n ≠ 0) (hf : 0 < fuel) :
    decCharsAux fuel n ≠ [] := by
  match fuel with
  | f + 1 => simp [decCharsAux, hn]

theorem hexCharsAux_ne_nil (fuel n : Nat) (hn : n ≠ 0) (hf : 0 < fuel) :
    hexCharsAux fuel n ≠ [] := by
  match fuel with
  | f + 1 => simp [hexCharsAux, hn]

theorem decRender_ne_nil (n : Nat) : decRender n ≠ [] := by
  unfold decRender
  split
  · simp
  · exact decCharsAux_ne_nil _ _ (by assumption) (by omega)

theorem hexRender_ne_nil (n : Nat) : hexRender n ≠ [] := by
  unfold hexRender
  split
  · simp
  · exact hexCharsAux_ne_nil _ _ (by assumption) (by omega)

theorem decCharsAux_head : ∀ fuel n, n ≠ 0 → n < 10 ^ fuel →
    ∃ d, d < 10 ∧ d ≠ 0 ∧ (decCharsAux fuel n).head? = some (digitCharHex d) := by
  intro fuel
  induction fuel with
  | zero => intro n hn h; interval_cases n; exact absurd rfl hn
  | succ f ih =>
    intro n hn h
    unfold decCharsAux
    rw [if_neg hn]
    by_cases hq : n / 10 = 0
    · have hlt : n < 10 := by omega
      have : decCharsAux f (n / 10) = [] := by
        rw [hq]
        match f with
        | 0 => rfl
        | f' + 1 => simp [decCharsAux]
      rw [this]
      exact ⟨n % 10, by omega, by omega, by simp⟩
    · have hdiv : n / 10 < 10 ^ f := by
        have : n < 10 ^ f * 10 := by rw [← pow_succ]; exact h
        omega
      obtain ⟨d, hd1, hd2, hd3⟩ := ih (n / 10) hq hdiv
      refine ⟨d, hd1, hd2, ?_⟩
      rw [List.head?_append_of_ne_nil]
      · exact hd3
      · exact decCharsAux_ne_nil f (n / 10) hq (by
          rcases Nat.eq_zero_or_pos f with hf | hf
          · exfalso; subst hf; rw [pow_zero] at hdiv; omega
          · exact hf)

theorem decRender_head_ne_zero (n : Nat) (hn : n ≠ 0) (c : Char)
    (hc : (decRender n).head? = some c) : c ≠ '0' := by
  unfold decRender at hc
  rw [if_neg hn] at hc
  obtain ⟨d, hd1, hd2, hd3⟩ := decCharsAux_head (n + 1) n hn (lt_ten_pow_self n)
  rw [hd3] at hc
  injection hc with hc
  subst hc
  intro hcon
  exact hd2 ((digitCharHex_eq_zeroChar d (by omega)).mp hcon)

theorem hexRender_eq_zero_iff (n : Nat) : hexRender n = ['0'] ↔ n = 0 := by
  constructor
  · intro h
    have := hexVal_hexRender n
    rw [h] at this
    simpa [hexVal, digitValHex] using this.symm
  · intro h; subst h; rfl

/-! ## IPv4 addresses

Models `ipaddress.IPv4Address` text parsing (`_parse_octet` /
`_ip_int_from_string`) and rendering (`_string_from_ip_int`). -/

theorem ne_of_pred_ne {p : Char → Bool} {c x : Char} (h : p c = true) (hx : p x = false) :
    c ≠ x := by
  intro he
  subst he
  rw [h] at hx
  cases hx

theorem parseOctet_decRender (o : Nat) (h : o ≤ 255) : parseOctet (decRender o) = some o := by
  by_cases ho : o = 0
  · subst ho; decide
  · have hne : decRender o ≠ [] := decRender_ne_nil o
    have hdig : (decRender o).all Char.isDigit = true :=
      List.all_eq_true.mpr fun c hc => decRender_all_digit o c hc
    have hlen : (decRender o).length ≤ 3 :=
      decRender_length_le o 3 (by norm_num) (by omega)
    have hval : decVal (decRender o) = o := decVal_decRender o
    have hhead : (decRender o).headI ≠ '0' := by
      intro hcon
      apply decRender_head_ne_zero o ho (decRender o).headI _ hcon
      cases hd : decRender o with
      | nil => exact absurd hd hne
      | cons a t => simp [hd, List.headI]
    unfold parseOctet
    rw [if_neg (by simpa [List.isEmpty_iff] using hne), if_neg (by simp [hdig]),
      if_neg (by omega), if_neg (by intro hcon; exact hhead hcon.1),
      if_neg (by rw [hval]; omega), hval]

theorem joinSep_four (c : Char) (a b d e : List Char) :
    joinSep c [a, b, d, e] = a ++ c :: (b ++ c :: (d ++ c :: e)) := rfl

theorem splitOnCharL_map_decRender_octets (v : Nat) :
    splitOnCharL '.' (renderIPv4 v) = (octetsV4 v).map decRender := by
  unfold renderIPv4
  apply splitOnCharL_joinSep
  · simp [octetsV4]
  · intro p hp x hx
    simp only [octetsV4, List.map_cons, List.map_nil, List.mem_cons,
      List.not_mem_nil, or_false] at hp
    rcases hp with h | h | h | h
    all_goals subst h
    all_goals exact ne_of_pred_ne (decRender_all_digit _ x hx) (by decide)

theorem parseIPv4_renderIPv4 (v : Nat) (h : v < 4294967296) :
    parseIPv4 (renderIPv4 v) = some v := by
  unfold parseIPv4
  rw [splitOnCharL_map_decRender_octets]
  simp only [octetsV4, List.map_cons, List.map_nil]
  rw [parseOctet_decRender _ (by omega), parseOctet_decRender _ (by omega),
    parseOctet_decRender _ (by omega), parseOctet_decRender _ (by omega)]
  simp only [Option.bind_eq_bind, Option.some_bind, Option.pure_def]
  congr 1
  omega

theorem bzrAux_spec (hs : List (List Char)) :
    ∀ (t : List (List Char)) (i cs cl bs bl : Nat),
      t = hs.drop i →
      (cl = 0 ∨ (cs + cl = i ∧ ∀ j, cs ≤ j → j < i → IsZeroAt hs j)) →
      (∀ j, bs ≤ j → j < bs + bl → IsZeroAt hs j) →
      ∀ j, (bzrAux t i cs cl bs bl).1 ≤ j →
        j < (bzrAux t i cs cl bs bl).1 + (bzrAux t i cs cl bs bl).2 → IsZeroAt hs j := by
  intro t
  induction t with
  | nil =>
    intro i cs cl bs bl _ _ hbest j h1 h2
    exact hbest j h1 h2
  | cons h t' ih =>
    intro i cs cl bs bl ht hcur hbest
    have hi_lt : i < hs.length := by
      have hlen : (hs.drop i).length = hs.length - i := List.length_drop i hs
      rw [← ht] at hlen
      simp only [List.length_cons] at hlen
      omega
    have hgd : hs.getD i [] = h := by
      have h1 : (hs.drop i).head? = some h := by rw [← ht]; rfl
      rw [List.head?_drop] at h1
      rw [List.getD_eq_getElem?_getD, h1]
      rfl
    have ht' : t' = hs.drop (i + 1) := by
      have h1 : (hs.drop i).tail = hs.drop (i + 1) := List.tail_drop hs i
      rw [← ht] at h1
      simpa using h1
    by_cases hz : h = ['0']
    · have hcur' : (if cl = 0 then i else cs) + (cl + 1) = i + 1 ∧
          ∀ j, (if cl = 0 then i else cs) ≤ j → j < i + 1 → IsZeroAt hs j := by
        rcases hcur with hc0 | ⟨hsum, hzr⟩
        · subst hc0
          simp only [reduceIte]
          refine ⟨by trivial, fun j hj1 hj2 => ?_⟩
          have : j = i := by omega
          subst this
          exact ⟨hi_lt, by rw [hgd, hz]⟩
        · by_cases hc0 : cl = 0
          · subst hc0
            simp only [reduceIte]
            refine ⟨by trivial, fun j hj1 hj2 => ?_⟩
            have : j = i := by omega
            subst this
            exact ⟨hi_lt, by rw [hgd, hz]⟩
          · rw [if_neg hc0]
            refine ⟨by omega, fun j hj1 hj2 => ?_⟩
            by_cases hji : j < i
            · exact hzr j hj1 hji
            · have : j = i := by omega
              subst this
              exact ⟨hi_lt, by rw [hgd, hz]⟩
      show ∀ j, (bzrAux (h :: t') i cs cl bs bl).1 ≤ j →
        j < (bzrAux (h :: t') i cs cl bs bl).1 + (bzrAux (h :: t') i cs cl bs bl).2 →
        IsZeroAt hs j
      simp only [bzrAux, if_pos hz]
      by_cases hbl : bl < cl + 1
      · rw [if_pos hbl]
        exact ih (i + 1) _ _ _ _ ht' (Or.inr hcur') (by rw [hcur'.1]; exact hcur'.2)
      · rw [if_neg hbl]
        exact ih (i + 1) _ _ _ _ ht' (Or.inr hcur') hbest
    · show ∀ j, (bzrAux (h :: t') i cs cl bs bl).1 ≤ j →
        j < (bzrAux (h :: t') i cs cl bs bl).1 + (bzrAux (h :: t') i cs cl bs bl).2 →
        IsZeroAt hs j
      simp only [bzrAux, if_neg hz]
      exact ih (i + 1) 0 0 bs bl ht' (Or.inl rfl) hbest

theorem bestZeroRun_spec (hs : List (List Char)) :
    ∀ j, (bestZeroRun hs).1 ≤ j → j < (bestZeroRun hs).1 + (bestZeroRun hs).2 →
      IsZeroAt hs j :=
  bzrAux_spec hs hs 0 0 0 0 0 rfl (Or.inl rfl) (fun j h1 h2 => absurd h2 (by omega))

theorem parseHextet_hexRender (g : Nat) (h : g < 65536) : parseHextet (hexRender g) = some g := by
  have hne : hexRender g ≠ [] := hexRender_ne_nil g
  have hhex : (hexRender g).all isHexDigitC = true :=
    List.all_eq_true.mpr fun c hc => hexRender_all_hex g c hc
  have hlen : (hexRender g).length ≤ 4 := hexRender_length_le g h
  unfold parseHextet
  rw [if_neg (by simp [hhex]), if_neg (by simpa [List.isEmpty_iff] using hne),
    if_neg (by omega)]
  rw [hexVal_hexRender]

theorem foldl_hex_acc (l : List Nat) (acc : Nat) :
    l.foldl (fun a g => a * 65536 + g) acc = acc * 65536 ^ l.length + combineHex l := by
  induction l generalizing acc with
  | nil => simp [combineHex]
  | cons g t ih =>
    have hct : combineHex (g :: t) = g * 65536 ^ t.length + combineHex t := by
      unfold combineHex
      simp only [List.foldl_cons]
      rw [ih (0 * 65536 + g)]
      norm_num
      rfl
    simp only [List.foldl_cons, List.length_cons, hct, ih (acc * 65536 + g)]
    ring

theorem foldHextets_map_hexRender (gs : List Nat) :
    ∀ acc, (∀ g ∈ gs, g < 65536) →
      foldHextets acc (gs.map hexRender) = some (gs.foldl (fun a g => a * 65536 + g) acc) := by
  induction gs with
  | nil => intro acc _; rfl
  | cons g t ih =>
    intro acc hb
    simp only [List.map_cons, foldHextets, parseHextet_hexRender g (hb g (by simp))]
    exact ih _ fun x hx => hb x (by simp [hx])

theorem combineHex_zeros (l : List Nat) (h : ∀ g ∈ l, g = 0) : combineHex l = 0 := by
  induction l with
  | nil => rfl
  | cons g t ih =>
    have hg : g = 0 := h g (by simp)
    unfold combineHex at ih ⊢
    simp only [List.foldl_cons, hg]
    exact ih fun x hx => h x (by simp [hx])

theorem combineHex_append (a b : List Nat) :
    combineHex (a ++ b) = combineHex a * 65536 ^ b.length + combineHex b := by
  unfold combineHex
  rw [List.foldl_append, foldl_hex_acc]
  rfl

theorem hextetsV6_length (v : Nat) : (hextetsV6 v).length = 8 := rfl

theorem hextetsV6_lt (v : Nat) : ∀ g ∈ hextetsV6 v, g < 65536 := by
  intro g hg
  simp only [hextetsV6, List.mem_cons, List.not_mem_nil, or_false] at hg
  rcases hg with h | h | h | h | h | h | h | h <;> subst h <;> omega

theorem combineHex_hextetsV6 (v : Nat) (h : v < 340282366920938463463374607431768211456) :
    combineHex (hextetsV6 v) = v := by
  simp only [hextetsV6, combineHex, List.foldl_cons, List.foldl_nil]
  norm_num
  omega

theorem contains_false_of_all (l : List Char) (x : Char) (h : ∀ c ∈ l, c ≠ x) :
    l.contains x = false := by
  simp only [List.contains]
  cases helem : l.elem x
  · rfl
  · exact absurd rfl (h x (List.mem_of_elem_eq_true helem))

theorem hexRender_isEmpty (g : Nat) : (hexRender g).isEmpty = false := by
  rw [List.isEmpty_eq_false_iff_exists_mem]
  cases hd : hexRender g with
  | nil => exact absurd hd (hexRender_ne_nil g)
  | cons a t => exact ⟨a, by simp⟩

theorem hexRender_contains_dot (g : Nat) : (hexRender g).contains '.' = false :=
  contains_false_of_all _ _ fun c hc => ne_of_pred_ne (hexRender_all_hex g c hc) (by decide)

theorem hexRender_no_colon (g : Nat) : ∀ x ∈ hexRender g, x ≠ ':' := fun x hx =>
  ne_of_pred_ne (hexRender_all_hex g x hx) (by decide)

theorem findIdx?_append_some (p : List Char → Bool) :
    ∀ (xs : List (List Char)) (y : List Char) (ys : List (List Char)) (i : Nat),
      (∀ x ∈ xs, p x = false) → p y = true →
      List.findIdx? p (xs ++ y :: ys) i = some (i + xs.length) := by
  intro xs
  induction xs with
  | nil =>
    intro y ys i _ hy
    simp [List.findIdx?, hy]
  | cons x xs' ih =>
    intro y ys i hxs hy
    have hx : p x = false := hxs x (by simp)
    simp only [List.cons_append, List.findIdx?, hx, Bool.false_eq_true, if_false]
    rw [show xs'.append (y :: ys) = xs' ++ y :: ys from rfl,
      ih y ys (i + 1) (fun z hz => hxs z (by simp [hz])) hy]
    exact congrArg some (by simp; omega)

theorem getLastD_append_of_ne_nil (a b : List (List Char)) (d : List Char) (h : b ≠ []) :
    (a ++ b).getLastD d = b.getLastD d := by
  rw [List.getLastD_eq_getLast?, List.getLastD_eq_getLast?,
    List.getLast?_append_of_ne_nil a h]

theorem getLast?_map_hexRender :
    ∀ l : List Nat, l ≠ [] → ∃ g, g ∈ l ∧ (l.map hexRender).getLast? = some (hexRender g)
  | [g], _ => ⟨g, by simp, by simp⟩
  | g :: q :: t, _ => by
    obtain ⟨g', hg1, hg2⟩ := getLast?_map_hexRender (q :: t) (by simp)
    refine ⟨g', by simp [List.mem_cons] at hg1 ⊢; tauto, ?_⟩
    simpa using hg2

theorem getLastD_map_hexRender (l : List Nat) (h : l ≠ []) :
    ∃ g, g ∈ l ∧ (l.map hexRender).getLastD [] = hexRender g := by
  obtain ⟨g, hg1, hg2⟩ := getLast?_map_hexRender l h
  exact ⟨g, hg1, by rw [List.getLastD_eq_getLast?, hg2]; rfl⟩

theorem foldHextets_map_combine (gs : List Nat) (hb : ∀ g ∈ gs, g < 65536) :
    foldHextets 0 (gs.map hexRender) = some (combineHex gs) :=
  foldHextets_map_hexRender gs 0 hb

theorem parseIPv6_joinSep (Q : List (List Char)) (h3 : 3 ≤ Q.length)
    (hc : ∀ p ∈ Q, ∀ x ∈ p, x ≠ ':') (hdot : (Q.getLastD []).contains '.' = false) :
    parseIPv6 (joinSep ':' Q) = parseIPv6Main Q := by
  unfold parseIPv6
  rw [splitOnCharL_joinSep ':' Q (by intro hcon; rw [hcon] at h3; simp at h3) hc]
  simp only [if_neg (by omega : ¬ Q.length < 3), hdot, Bool.false_eq_true, if_false]

theorem parseIPv6Main_zero3 : parseIPv6Main [[], [], []] = some 0 := by decide

theorem parseIPv6Main_lead (y : Nat) (Y' : List Nat) (hY : ∀ g ∈ y :: Y', g < 65536)
    (hlt : (y :: Y').length < 8) :
    parseIPv6Main ([] :: [] :: (y :: Y').map hexRender) = some (combineHex (y :: Y')) := by
  have hcomb := foldHextets_map_combine (y :: Y') hY
  obtain ⟨gl, hgl1, hgl2⟩ := getLastD_map_hexRender (y :: Y') (by simp)
  simp only [List.length_cons] at hlt
  simp only [List.map_cons] at hcomb hgl2 ⊢
  have hlast : ([] :: [] :: hexRender y :: Y'.map hexRender).getLastD [] = hexRender gl := by
    rw [show ([] :: [] :: hexRender y :: Y'.map hexRender : List (List Char))
        = [[], []] ++ (hexRender y :: Y'.map hexRender) from rfl,
      getLastD_append_of_ne_nil _ _ _ (by simp), hgl2]
  have hfilY : ((hexRender y :: Y'.map hexRender).dropLast).filter
      (fun p => p.isEmpty) = [] := by
    rw [List.filter_eq_nil_iff]
    intro a ha
    have hmem := (List.dropLast_sublist (hexRender y :: Y'.map hexRender)).subset ha
    simp only [List.mem_cons, List.mem_map] at hmem
    rcases hmem with rfl | ⟨g, _, rfl⟩ <;> simp [hexRender_isEmpty]
  unfold parseIPv6Main
  rw [if_neg (by simp only [List.length_cons, List.length_map]; omega)]
  simp only [List.drop_succ_cons, List.drop_zero, List.dropLast_cons₂, List.findIdx?,
    List.isEmpty_nil, if_true, List.filter_cons, List.length_cons, List.headI,
    List.isEmpty_eq_true, hfilY, hlast, hexRender_isEmpty]
  rw [if_neg (by simp)]
  rw [if_neg (by simp)]
  rw [if_neg (by simp)]
  rw [if_neg (by simp only [Bool.false_eq_true, if_false, List.length_nil, List.length_cons,
    List.length_map]; omega)]
  simp only [Bool.false_eq_true, if_false, foldHextets, zero_mul]
  exact hcomb

theorem parseIPv6Main_trail (x : Nat) (X' : List Nat) (hX : ∀ g ∈ x :: X', g < 65536)
    (hlt : (x :: X').length < 8) :
    parseIPv6Main ((x :: X').map hexRender ++ [[], []])
      = some (combineHex (x :: X') * 65536 ^ (8 - (x :: X').length)) := by
  have hcomb := foldHextets_map_combine (x :: X') hX
  simp only [List.length_cons] at hlt
  simp only [List.map_cons] at hcomb ⊢
  have hlast : (hexRender x :: (X'.map hexRender ++ [[], []])).getLastD [] = [] := by
    rw [show hexRender x :: (X'.map hexRender ++ [[], []])
        = (hexRender x :: X'.map hexRender) ++ [[], []] from by simp,
      getLastD_append_of_ne_nil _ _ _ (by simp)]
    rfl
  have hfilX : (X'.map hexRender).filter (fun p => p.isEmpty) = [] := by
    rw [List.filter_eq_nil_iff]
    intro a ha
    simp only [List.mem_map] at ha
    obtain ⟨g, _, rfl⟩ := ha
    simp [hexRender_isEmpty]
  have hdl : ((X'.map hexRender ++ [[], []]) : List (List Char)).dropLast
      = X'.map hexRender ++ [[]] := by
    rw [List.dropLast_append_of_ne_nil _ (by simp)]
    rfl
  have hfind : List.findIdx? (fun p => p.isEmpty) (X'.map hexRender ++ [[]]) 0
      = some (0 + X'.length) := by
    rw [show (X'.map hexRender ++ [[]] : List (List Char))
        = X'.map hexRender ++ [] :: [] from rfl,
      findIdx?_append_some _ _ _ _ 0 ?hall (by simp)]
    · simp
    case hall =>
      intro p hp
      simp only [List.mem_map] at hp
      obtain ⟨g, _, rfl⟩ := hp
      exact hexRender_isEmpty g
  have htake : List.take (X'.length + 1) (hexRender x :: (X'.map hexRender ++ [[], []]))
      = hexRender x :: X'.map hexRender := by
    rw [show hexRender x :: (X'.map hexRender ++ [[], []])
        = (hexRender x :: X'.map hexRender) ++ [[], []] from by simp,
      show X'.length + 1 = (hexRender x :: X'.map hexRender).length by simp]
    exact List.take_left _ _
  unfold parseIPv6Main
  rw [if_neg (by
    simp only [List.length_append, List.length_cons, List.length_map, List.length_nil]
    omega)]
  simp only [List.cons_append, List.drop_succ_cons, List.drop_zero, hdl, hfind,
    List.filter_append, hfilX, List.headI, hexRender_isEmpty, hlast, Nat.zero_add,
    List.isEmpty_nil, List.filter_cons, if_true, List.nil_append, List.length_cons,
    List.length_nil, List.length_append, List.length_map, Bool.false_eq_true, false_and,
    if_false, htake]
  rw [if_neg (by simp)]
  rw [if_neg (by simp only [true_and]; omega)]
  rw [if_neg (by omega)]
  rw [hcomb]
  simp only [foldHextets]
  norm_num

theorem parseIPv6Main_mid (x y : Nat) (X' Y' : List Nat)
    (hX : ∀ g ∈ x :: X', g < 65536) (hY : ∀ g ∈ y :: Y', g < 65536)
    (hlt : (x :: X').length + (y :: Y').length < 8) :
    parseIPv6Main ((x :: X').map hexRender ++ [[]] ++ (y :: Y').map hexRender)
      = some (combineHex (x :: X') * 65536 ^ (8 - (x :: X').length)
          + combineHex (y :: Y')) := by
  have hcombX := foldHextets_map_combine (x :: X') hX
  obtain ⟨gl, hgl1, hgl2⟩ := getLast?_map_hexRender (y :: Y') (by simp)
  simp only [List.length_cons] at hlt
  simp only [List.map_cons] at hcombX hgl2 ⊢
  have hallX : ∀ p ∈ X'.map hexRender, (fun p : List Char => p.isEmpty) p = false := by
    intro p hp
    simp only [List.mem_map] at hp
    obtain ⟨g, _, rfl⟩ := hp
    exact hexRender_isEmpty g
  have hfilX : (X'.map hexRender).filter (fun p => p.isEmpty) = [] := by
    rw [List.filter_eq_nil_iff]
    intro a ha
    simp only [hallX a ha]
    simp
  have hfilYdl : ((hexRender y :: Y'.map hexRender).dropLast).filter
      (fun p => p.isEmpty) = [] := by
    rw [List.filter_eq_nil_iff]
    intro a ha
    have hmem := (List.dropLast_sublist (hexRender y :: Y'.map hexRender)).subset ha
    simp only [List.mem_cons, List.mem_map] at hmem
    rcases hmem with rfl | ⟨g, _, rfl⟩ <;> simp [hexRender_isEmpty]
  have hlast : (hexRender x :: (X'.map hexRender ++ [] ::
      (hexRender y :: Y'.map hexRender))).getLastD [] = hexRender gl := by
    rw [List.getLastD_eq_getLast?,
      show hexRender x :: (X'.map hexRender ++ [] :: (hexRender y :: Y'.map hexRender))
        = ((hexRender x :: X'.map hexRender) ++ [[]]) ++ (hexRender y :: Y'.map hexRender)
        from by simp,
      List.getLast?_append_of_ne_nil _ (by simp), hgl2]
    rfl
  have hdl : ((X'.map hexRender ++ [] :: (hexRender y :: Y'.map hexRender))).dropLast
      = X'.map hexRender ++ [] :: (hexRender y :: Y'.map hexRender).dropLast := by
    rw [List.dropLast_append_of_ne_nil _ (by simp)]
    congr 1
  have hfind : List.findIdx? (fun p => p.isEmpty)
      (X'.map hexRender ++ [] :: (hexRender y :: Y'.map hexRender).dropLast)
      = some (0 + X'.length) := by
    rw [findIdx?_append_some _ _ _ _ 0 hallX (by simp)]
    simp
  have hfil : (X'.map hexRender ++ [] ::
      (hexRender y :: Y'.map hexRender).dropLast).filter (fun p => p.isEmpty) = [[]] := by
    rw [List.filter_append, hfilX, List.filter_cons]
    simp [hfilYdl]
  have htake : List.take (X'.length + 1)
      (hexRender x :: (X'.map hexRender ++ [] :: (hexRender y :: Y'.map hexRender)))
      = hexRender x :: X'.map hexRender := by
    rw [show hexRender x :: (X'.map hexRender ++ [] :: (hexRender y :: Y'.map hexRender))
        = (hexRender x :: X'.map hexRender) ++ ([] :: (hexRender y :: Y'.map hexRender))
        from by simp,
      show X'.length + 1 = (hexRender x :: X'.map hexRender).length by simp]
    exact List.take_left _ _
  have hdrop : List.drop (X'.length + 1 + 1)
      (hexRender x :: (X'.map hexRender ++ [] :: (hexRender y :: Y'.map hexRender)))
      = hexRender y :: Y'.map hexRender := by
    rw [show hexRender x :: (X'.map hexRender ++ [] :: (hexRender y :: Y'.map hexRender))
        = ((hexRender x :: X'.map hexRender) ++ [[]]) ++ (hexRender y :: Y'.map hexRender)
        from by simp,
      show X'.length + 1 + 1 = ((hexRender x :: X'.map hexRender) ++ [[]]).length by simp]
    exact List.drop_left _ _
  unfold parseIPv6Main
  rw [if_neg (by
    simp only [List.length_append, List.length_cons, List.length_map, List.length_nil]
    omega)]
  simp only [List.cons_append, List.append_assoc, List.singleton_append, List.nil_append,
    List.drop_succ_cons, List.drop_zero, hdl, hfind, hfil, List.headI, hexRender_isEmpty,
    hlast, Nat.zero_add, List.length_cons, List.length_nil, List.length_append,
    List.length_map, Bool.false_eq_true, false_and, if_false, htake, hdrop]
  rw [if_neg (by omega)]
  rw [if_neg (by omega)]
  rw [hcombX]
  have hfoldY := foldHextets_map_hexRender (y :: Y')
    (combineHex (x :: X') * 65536 ^ (8 - (X'.length + 1) - (Y'.length + 1))) hY
  simp only [List.map_cons] at hfoldY
  show foldHextets (combineHex (x :: X') * 65536 ^ (8 - (X'.length + 1) - (Y'.length + 1)))
    (hexRender y :: List.map hexRender Y')
    = some (combineHex (x :: X') * 65536 ^ (8 - (X'.length + 1)) + combineHex (y :: Y'))
  rw [hfoldY]
  refine congrArg some ?_
  rw [foldl_hex_acc]
  simp only [List.length_cons]
  rw [mul_assoc, ← pow_add]
  have hexp : 8 - (X'.length + 1) - (Y'.length + 1) + (Y'.length + 1)
      = 8 - (X'.length + 1) := by omega
  rw [hexp]

theorem parseIPv6Main_full (gs : List Nat) (hlen : gs.length = 8)
    (hb : ∀ g ∈ gs, g < 65536) :
    parseIPv6Main (gs.map hexRender) = some (combineHex gs) := by
  have hcomb := foldHextets_map_combine gs hb
  obtain ⟨g0, g1, g2, g3, g4, g5, g6, g7, rfl⟩ :
      ∃ g0 g1 g2 g3 g4 g5 g6 g7, gs = [g0, g1, g2, g3, g4, g5, g6, g7] := by
    rcases gs with _ | ⟨g0, gs⟩; · simp at hlen
    rcases gs with _ | ⟨g1, gs⟩; · simp at hlen
    rcases gs with _ | ⟨g2, gs⟩; · simp at hlen
    rcases gs with _ | ⟨g3, gs⟩; · simp at hlen
    rcases gs with _ | ⟨g4, gs⟩; · simp at hlen
    rcases gs with _ | ⟨g5, gs⟩; · simp at hlen
    rcases gs with _ | ⟨g6, gs⟩; · simp at hlen
    rcases gs with _ | ⟨g7, gs⟩; · simp at hlen
    rcases gs with _ | ⟨g8, gs⟩
    · exact ⟨g0, g1, g2, g3, g4, g5, g6, g7, rfl⟩
    · simp at hlen
  simp only [List.map_cons, List.map_nil] at hcomb ⊢
  unfold parseIPv6Main
  rw [if_neg (by simp)]
  simp only [List.drop_succ_cons, List.drop_zero, List.dropLast_cons₂,
    List.dropLast_single, List.findIdx?, hexRender_isEmpty, Bool.false_eq_true, if_false,
    List.headI, List.getLastD_cons, List.length_cons, List.length_nil]
  rw [if_neg (by norm_num), if_neg (by rw [List.getLastD_nil]; simp [hexRender_isEmpty])]
  exact hcomb

theorem getD_map_hexRender (l : List Nat) (j : Nat) (hj : j < l.length) :
    (l.map hexRender).getD j [] = hexRender (l.getD j 0) := by
  rw [List.getD_eq_getElem?_getD, List.getD_eq_getElem?_getD, List.getElem?_map,
    List.getElem?_eq_getElem hj]
  rfl

theorem all_zero_infix (gs : List Nat) (s L : Nat)
    (h : ∀ j, s ≤ j → j < s + L → gs.getD j 0 = 0) :
    ∀ g ∈ (gs.drop s).take L, g = 0 := by
  intro g hg
  obtain ⟨k, hk, hgk⟩ := List.mem_iff_getElem.mp hg
  have hk1 : k < L := by
    have := hk
    simp only [List.length_take, List.length_drop] at this
    omega
  have hk2 : s + k < gs.length := by
    have := hk
    simp only [List.length_take, List.length_drop] at this
    omega
  have h1 : (gs.drop s).take L = (gs.drop s).take L := rfl
  rw [List.getElem_take, List.getElem_drop] at hgk
  have hgd : gs.getD (s + k) 0 = g := by
    rw [List.getD_eq_getElem?_getD, List.getElem?_eq_getElem hk2, Option.getD_some]
    exact hgk
  rw [← hgd]
  exact h (s + k) (by omega) (by omega)

theorem combineHex_decompose (gs : List Nat) (s e : Nat) (hs8 : gs.length = 8)
    (hse : s ≤ e) (he : e ≤ 8)
    (hzero : ∀ g ∈ (gs.drop s).take (e - s), g = 0) :
    combineHex gs = combineHex (gs.take s) * 65536 ^ (8 - s) + combineHex (gs.drop e) := by
  conv_lhs => rw [← List.take_append_drop s gs]
  rw [combineHex_append]
  have h2 : gs.drop s = (gs.drop s).take (e - s) ++ gs.drop e := by
    conv_lhs => rw [← List.take_append_drop (e - s) (gs.drop s)]
    congr 1
    rw [List.drop_drop]
    congr 1
    omega
  rw [h2, combineHex_append, combineHex_zeros _ hzero, zero_mul, zero_add]
  have h3 : ((gs.drop s).take (e - s) ++ gs.drop e).length = 8 - s := by
    simp only [List.length_append, List.length_take, List.length_drop, hs8]
    omega
  rw [h3]

theorem HexPieces.no_colon {Q : List (List Char)} (h : HexPieces Q) :
    ∀ p ∈ Q, ∀ x ∈ p, x ≠ ':' := by
  intro p hp x hx
  rcases h p hp with rfl | ⟨g, rfl⟩
  · simp at hx
  · exact hexRender_no_colon g x hx

theorem hexPieces_lead (y : Nat) (Y' : List Nat) :
    HexPieces ([] :: [] :: (y :: Y').map hexRender) := by
  intro p hp
  simp only [List.mem_cons, List.mem_map] at hp
  rcases hp with rfl | rfl | ⟨g, _, rfl⟩
  · exact Or.inl rfl
  · exact Or.inl rfl
  · exact Or.inr ⟨g, rfl⟩

theorem hexPieces_trail (x : Nat) (X' : List Nat) :
    HexPieces ((x :: X').map hexRender ++ [[], []]) := by
  intro p hp
  simp only [List.mem_append, List.mem_map] at hp
  rcases hp with ⟨g, _, rfl⟩ | hp
  · exact Or.inr ⟨g, rfl⟩
  · simp only [List.mem_cons, List.mem_singleton, List.not_mem_nil, or_false] at hp
    rcases hp with rfl | rfl
    · exact Or.inl rfl
    · exact Or.inl rfl

theorem hexPieces_mid (x y : Nat) (X' Y' : List Nat) :
    HexPieces ((x :: X').map hexRender ++ [[]] ++ (y :: Y').map hexRender) := by
  intro p hp
  simp only [List.mem_append, List.mem_map, List.mem_singleton] at hp
  rcases hp with (⟨g, _, rfl⟩ | rfl) | ⟨g, _, rfl⟩
  · exact Or.inr ⟨g, rfl⟩
  · exact Or.inl rfl
  · exact Or.inr ⟨g, rfl⟩

theorem hexPieces_full (gs : List Nat) : HexPieces (gs.map hexRender) := by
  intro p hp
  simp only [List.mem_map] at hp
  obtain ⟨g, _, rfl⟩ := hp
  exact Or.inr ⟨g, rfl⟩

theorem parseIPv6_join_zero3 : parseIPv6 (joinSep ':' [[], [], []]) = some 0 := by decide

theorem parseIPv6_join_lead (y : Nat) (Y' : List Nat) (hY : ∀ g ∈ y :: Y', g < 65536)
    (hlt : (y :: Y').length < 8) :
    parseIPv6 (joinSep ':' ([] :: [] :: (y :: Y').map hexRender))
      = some (combineHex (y :: Y')) := by
  obtain ⟨gl, hgl1, hgl2⟩ := getLastD_map_hexRender (y :: Y') (by simp)
  rw [parseIPv6_joinSep _ (by simp) (hexPieces_lead y Y').no_colon ?hdot]
  · exact parseIPv6Main_lead y Y' hY hlt
  case hdot =>
    rw [show ([] :: [] :: (y :: Y').map hexRender : List (List Char))
        = [[], []] ++ (y :: Y').map hexRender from rfl,
      getLastD_append_of_ne_nil _ _ _ (by simp), hgl2]
    exact hexRender_contains_dot gl

theorem parseIPv6_join_trail (x : Nat) (X' : List Nat) (hX : ∀ g ∈ x :: X', g < 65536)
    (hlt : (x :: X').length < 8) :
    parseIPv6 (joinSep ':' ((x :: X').map hexRender ++ [[], []]))
      = some (combineHex (x :: X') * 65536 ^ (8 - (x :: X').length)) := by
  rw [parseIPv6_joinSep _ (by simp) (hexPieces_trail x X').no_colon ?hdot]
  · exact parseIPv6Main_trail x X' hX hlt
  case hdot =>
    rw [getLastD_append_of_ne_nil _ _ _ (by simp)]
    rfl

theorem parseIPv6_join_mid (x y : Nat) (X' Y' : List Nat)
    (hX : ∀ g ∈ x :: X', g < 65536) (hY : ∀ g ∈ y :: Y', g < 65536)
    (hlt : (x :: X').length + (y :: Y').length < 8) :
    parseIPv6 (joinSep ':' ((x :: X').map hexRender ++ [[]] ++ (y :: Y').map hexRender))
      = some (combineHex (x :: X') * 65536 ^ (8 - (x :: X').length)
          + combineHex (y :: Y')) := by
  obtain ⟨gl, hgl1, hgl2⟩ := getLastD_map_hexRender (y :: Y') (by simp)
  rw [parseIPv6_joinSep _ (by simp; omega) (hexPieces_mid x y X' Y').no_colon ?hdot]
  · exact parseIPv6Main_mid x y X' Y' hX hY hlt
  case hdot =>
    rw [List.append_assoc, getLastD_append_of_ne_nil _ _ _ (by simp),
      getLastD_append_of_ne_nil _ _ _ (by simp), hgl2]
    exact hexRender_contains_dot gl

theorem parseIPv6_join_full (gs : List Nat) (hlen : gs.length = 8)
    (hb : ∀ g ∈ gs, g < 65536) :
    parseIPv6 (joinSep ':' (gs.map hexRender)) = some (combineHex gs) := by
  obtain ⟨gl, hgl1, hgl2⟩ := getLastD_map_hexRender gs
    (by intro h; rw [h] at hlen; simp at hlen)
  rw [parseIPv6_joinSep _ (by simp [hlen]) (hexPieces_full gs).no_colon ?hdot]
  · exact parseIPv6Main_full gs hlen hb
  case hdot =>
    rw [hgl2]
    exact hexRender_contains_dot gl

theorem parseIPv6_renderIPv6 (v : Nat)
    (hv : v < 340282366920938463463374607431768211456) :
    parseIPv6 (renderIPv6 v) = some v := by
  have hglen : (hextetsV6 v).length = 8 := rfl
  have hgb := hextetsV6_lt v
  have hmap8 : ((hextetsV6 v).map hexRender).length = 8 := by
    rw [List.length_map, hglen]
  have hcv := combineHex_hextetsV6 v hv
  obtain ⟨s, L, hbr⟩ : ∃ s L, bestZeroRun ((hextetsV6 v).map hexRender) = (s, L) :=
    ⟨_, _, rfl⟩
  unfold renderIPv6 compressHextets
  rw [hbr]
  simp only []
  by_cases h2 : 1 < L
  · rw [if_pos h2, hmap8]
    have hzr : ∀ j, s ≤ j → j < s + L → IsZeroAt ((hextetsV6 v).map hexRender) j := by
      have h := bestZeroRun_spec ((hextetsV6 v).map hexRender)
      rw [hbr] at h
      exact h
    have hsL : s + L ≤ 8 := by
      have h1 := (hzr (s + L - 1) (by omega) (by omega)).1
      rw [hmap8] at h1
      omega
    have hz : ∀ j, s ≤ j → j < s + L → (hextetsV6 v).getD j 0 = 0 := by
      intro j hj1 hj2
      obtain ⟨hjl, hjz⟩ := hzr j hj1 hj2
      rw [hmap8] at hjl
      rw [getD_map_hexRender _ j (by rw [hglen]; exact hjl)] at hjz
      exact (hexRender_eq_zero_iff _).mp hjz
    have hzseg : ∀ g ∈ ((hextetsV6 v).drop s).take (s + L - s), g = 0 := by
      rw [show s + L - s = L by omega]
      exact all_zero_infix _ s L hz
    have hvdec : combineHex ((hextetsV6 v).take s) * 65536 ^ (8 - s)
        + combineHex ((hextetsV6 v).drop (s + L)) = v := by
      rw [← combineHex_decompose _ s (s + L) hglen (by omega) hsL hzseg]
      exact hcv
    have hbt : ∀ g ∈ (hextetsV6 v).take s, g < 65536 :=
      fun g hg => hgb g (List.take_subset s _ hg)
    have hbd : ∀ g ∈ (hextetsV6 v).drop (s + L), g < 65536 :=
      fun g hg => hgb g (List.drop_subset _ _ hg)
    by_cases hs0 : s = 0
    · subst hs0
      rw [if_pos rfl]
      by_cases he8 : 0 + L = 8
      · rw [if_pos he8]
        rw [show ([[]] : List (List Char)) ++ ((hextetsV6 v).map hexRender).take 0
            ++ [[]] ++ [[]] = [[], [], []] from by simp]
        rw [parseIPv6_join_zero3]
        have hd8 : (hextetsV6 v).drop (0 + L) = [] :=
          List.drop_eq_nil_of_le (by rw [hglen]; omega)
        rw [hd8] at hvdec
        simp only [List.take_zero, show combineHex ([] : List Nat) = 0 from rfl,
          zero_mul, zero_add] at hvdec
        rw [hvdec]
      · rw [if_neg he8]
        have hmapdrop : ((hextetsV6 v).map hexRender).drop (0 + L)
            = ((hextetsV6 v).drop (0 + L)).map hexRender := (List.map_drop ..).symm
        cases hD : (hextetsV6 v).drop (0 + L) with
        | nil =>
          exfalso
          have hc := congrArg List.length hD
          simp only [List.length_drop, hglen, List.length_nil] at hc
          omega
        | cons y Y' =>
          rw [hmapdrop, hD]
          rw [show ([[]] : List (List Char)) ++ ((hextetsV6 v).map hexRender).take 0
              ++ [[]] ++ (y :: Y').map hexRender
              = [] :: [] :: (y :: Y').map hexRender from by simp]
          have hlenD : (y :: Y').length = 8 - (0 + L) := by
            have hc := congrArg List.length hD
            simp only [List.length_drop, hglen, List.length_cons] at hc
            simp only [List.length_cons]
            omega
          rw [parseIPv6_join_lead y Y' (by rw [← hD]; exact hbd)
            (by rw [hlenD]; omega)]
          rw [hD] at hvdec
          simp only [List.take_zero, show combineHex ([] : List Nat) = 0 from rfl,
            zero_mul, zero_add] at hvdec
          rw [hvdec]
    · rw [if_neg hs0]
      have hmaptake : ((hextetsV6 v).map hexRender).take s
          = ((hextetsV6 v).take s).map hexRender := (List.map_take ..).symm
      cases hT : (hextetsV6 v).take s with
      | nil =>
        exfalso
        have hc := congrArg List.length hT
        simp only [List.length_take, hglen, List.length_nil] at hc
        omega
      | cons x X' =>
        have hlenT : (x :: X').length = s := by
          have hc := congrArg List.length hT
          simp only [List.length_take, hglen, List.length_cons] at hc
          simp only [List.length_cons]
          omega
        by_cases he8 : s + L = 8
        · rw [if_pos he8]
          rw [hmaptake, hT]
          rw [show ([] : List (List Char)) ++ (x :: X').map hexRender ++ [[]] ++ [[]]
              = (x :: X').map hexRender ++ [[], []] from by simp]
          rw [parseIPv6_join_trail x X' (by rw [← hT]; exact hbt) (by rw [hlenT]; omega)]
          rw [hlenT]
          have hdrop8 : (hextetsV6 v).drop (s + L) = [] :=
            List.drop_eq_nil_of_le (by rw [hglen]; omega)
          rw [hT, hdrop8] at hvdec
          simp only [show combineHex ([] : List Nat) = 0 from rfl, add_zero] at hvdec
          rw [hvdec]
        · rw [if_neg he8]
          have hmapdrop : ((hextetsV6 v).map hexRender).drop (s + L)
              = ((hextetsV6 v).drop (s + L)).map hexRender := (List.map_drop ..).symm
          cases hD : (hextetsV6 v).drop (s + L) with
          | nil =>
            exfalso
            have hc := congrArg List.length hD
            simp only [List.length_drop, hglen, List.length_nil] at hc
            omega
          | cons y Y' =>
            have hlenD : (y :: Y').length = 8 - (s + L) := by
              have hc := congrArg List.length hD
              simp only [List.length_drop, hglen, List.length_cons] at hc
              simp only [List.length_cons]
              omega
            rw [hmaptake, hT, hmapdrop, hD]
            rw [show ([] : List (List Char)) ++ (x :: X').map hexRender ++ [[]]
                ++ (y :: Y').map hexRender
                = (x :: X').map hexRender ++ [[]] ++ (y :: Y').map hexRender from by simp]
            rw [parseIPv6_join_mid x y X' Y' (by rw [← hT]; exact hbt)
              (by rw [← hD]; exact hbd) (by rw [hlenT, hlenD]; omega)]
            rw [hlenT]
            rw [hT, hD] at hvdec
            rw [hvdec]
  · rw [if_neg h2]
    rw [parseIPv6_join_full (hextetsV6 v) hglen hgb, hcv]

theorem digitValHex_lt_of_hex (c : Char) (h : isHexDigitC c = true) : digitValHex c < 16 := by
  unfold isHexDigitC at h
  unfold digitValHex
  simp only [Bool.or_eq_true, Bool.and_eq_true, decide_eq_true_eq] at h
  by_cases hd : c.isDigit = true
  · rw [if_pos hd]
    have hdd : (decide (48 ≤ c.toNat) && decide (c.toNat ≤ 57)) = true := hd
    simp only [Bool.and_eq_true, decide_eq_true_eq] at hdd
    omega
  · rw [if_neg hd]
    rcases h with (h | h) | h
    · exact absurd h hd
    · obtain ⟨h1, h2⟩ := h
      have h1' : (97 : Nat) ≤ c.toNat := h1
      have h2' : c.toNat ≤ (102 : Nat) := h2
      rw [if_pos (by simp only [Bool.and_eq_true, decide_eq_true_eq]; exact ⟨h1, h2⟩)]
      omega
    · obtain ⟨h1, h2⟩ := h
      have h1' : (65 : Nat) ≤ c.toNat := h1
      have h2' : c.toNat ≤ (70 : Nat) := h2
      have hne : ¬ ('a' ≤ c ∧ c ≤ 'f') := by
        intro ⟨ha, _⟩
        have ha' : (97 : Nat) ≤ c.toNat := ha
        omega
      rw [if_neg (by simp only [Bool.and_eq_true, decide_eq_true_eq]; exact hne)]
      omega

theorem foldl_hexval_lt : ∀ (l : List Char) (acc : Nat), (∀ c ∈ l, isHexDigitC c = true) →
    l.foldl (fun a c => a * 16 + digitValHex c) acc < (acc + 1) * 16 ^ l.length := by
  intro l
  induction l with
  | nil => intro acc _; simp
  | cons c t ih =>
    intro acc h
    have hc := digitValHex_lt_of_hex c (h c (by simp))
    have := ih (acc * 16 + digitValHex c) (fun x hx => h x (by simp [hx]))
    calc List.foldl (fun a c => a * 16 + digitValHex c) (acc * 16 + digitValHex c) t
        < (acc * 16 + digitValHex c + 1) * 16 ^ t.length := this
      _ ≤ ((acc + 1) * 16) * 16 ^ t.length := by
          apply Nat.mul_le_mul_right
          omega
      _ = (acc + 1) * 16 ^ (t.length + 1) := by ring
      _ = (acc + 1) * 16 ^ (c :: t).length := by rw [List.length_cons]

theorem parseHextet_lt (l : List Char) (h : Nat) (hp : parseHextet l = some h) : h < 65536 := by
  unfold parseHextet at hp
  split at hp
  · cases hp
  · split at hp
    · cases hp
    · split at hp
      · cases hp
      · rename_i hall' hne4 hlen4
        injection hp with hp
        subst hp
        have hall : l.all isHexDigitC = true := not_not.mp hall'
        have hb := foldl_hexval_lt l 0 (fun c hc => List.all_eq_true.mp hall c hc)
        have hlen : l.length ≤ 4 := by omega
        calc hexVal l < (0 + 1) * 16 ^ l.length := hb
          _ = 16 ^ l.length := by ring
          _ ≤ 16 ^ 4 := Nat.pow_le_pow_right (by norm_num) hlen
          _ ≤ 65536 := by norm_num

theorem foldHextets_lt : ∀ (l : List (List Char)) (acc v b : Nat),
    foldHextets acc l = some v → acc < b → v < b * 65536 ^ l.length := by
  intro l
  induction l with
  | nil =>
    intro acc v b hf hb
    injection hf with hf
    subst hf
    simpa using hb
  | cons p t ih =>
    intro acc v b hf hb
    unfold foldHextets at hf
    split at hf
    · cases hf
    · rename_i h hph
      have hh := parseHextet_lt p h hph
      have := ih (acc * 65536 + h) v (b * 65536) hf (by
        calc acc * 65536 + h < acc * 65536 + 65536 := by omega
          _ = (acc + 1) * 65536 := by ring
          _ ≤ b * 65536 := Nat.mul_le_mul_right _ (by omega))
      calc v < (b * 65536) * 65536 ^ t.length := this
        _ = b * 65536 ^ (t.length + 1) := by ring
        _ = b * 65536 ^ (p :: t).length := by rw [List.length_cons]

theorem parseOctet_le (l : List Char) (o : Nat) (hp : parseOctet l = some o) : o ≤ 255 := by
  unfold parseOctet at hp
  split at hp
  · cases hp
  · split at hp
    · cases hp
    · split at hp
      · cases hp
      · split at hp
        · cases hp
        · split at hp
          · cases hp
          · injection hp with hp
            subst hp
            omega

theorem parseIPv4_lt (l : List Char) (v : Nat) (hp : parseIPv4 l = some v) :
    v < 4294967296 := by
  unfold parseIPv4 at hp
  split at hp
  · rename_i a b c d
    simp only [Option.bind_eq_bind, Option.bind_eq_some, Option.pure_def,
      Option.some.injEq] at hp
    obtain ⟨x, hx, y, hy, z, hz, w, hw, hv⟩ := hp
    have := parseOctet_le _ x hx
    have := parseOctet_le _ y hy
    have := parseOctet_le _ z hz
    have := parseOctet_le _ w hw
    omega
  · cases hp

theorem pow65536_mono {a b : Nat} (h : a ≤ b) : (65536 : Nat) ^ a ≤ 65536 ^ b :=
  Nat.pow_le_pow_right (by norm_num) h

theorem parseIPv6Main_lt (parts : List (List Char)) (v : Nat)
    (hp : parseIPv6Main parts = some v) :
    v < 340282366920938463463374607431768211456 := by
  unfold parseIPv6Main at hp
  simp only [] at hp
  by_cases h9 : 9 < parts.length
  · rw [if_pos h9] at hp; cases hp
  · rw [if_neg h9] at hp
    cases hIdx : List.findIdx? (fun p => p.isEmpty) ((parts.drop 1).dropLast) with
    | some idx =>
      simp only [hIdx] at hp
      by_cases hfil : 1 < (((parts.drop 1).dropLast).filter (fun p => p.isEmpty)).length
      · rw [if_pos hfil] at hp; cases hp
      · rw [if_neg hfil] at hp
        by_cases hhead : (parts.headI).isEmpty = true ∧ idx + 1 ≠ 1
        · rw [if_pos hhead] at hp; cases hp
        · rw [if_neg hhead] at hp
          by_cases hlast : (parts.getLastD []).isEmpty = true
              ∧ parts.length - (idx + 1) - 1 ≠ 1
          · rw [if_pos hlast] at hp; cases hp
          · rw [if_neg hlast] at hp
            set hiP : List (List Char) :=
              if (parts.headI).isEmpty = true then [] else parts.take (idx + 1) with hHi
            set loP : List (List Char) :=
              if (parts.getLastD []).isEmpty = true then []
              else parts.drop (idx + 1 + 1) with hLo
            by_cases hguard : 8 ≤ hiP.length + loP.length
            · rw [if_pos hguard] at hp; cases hp
            · rw [if_neg hguard] at hp
              cases hfold : foldHextets 0 hiP with
              | none => rw [hfold] at hp; cases hp
              | some hi =>
                rw [hfold] at hp
                simp only [] at hp
                have hhi := foldHextets_lt _ 0 _ 1 hfold (by omega)
                rw [one_mul] at hhi
                have hb : hi * 65536 ^ (8 - hiP.length - loP.length)
                    < 65536 ^ (8 - loP.length) := by
                  calc hi * 65536 ^ (8 - hiP.length - loP.length)
                      < 65536 ^ hiP.length * 65536 ^ (8 - hiP.length - loP.length) :=
                        mul_lt_mul_of_pos_right hhi (Nat.pos_pow_of_pos _ (by norm_num))
                    _ = 65536 ^ (hiP.length + (8 - hiP.length - loP.length)) :=
                        (pow_add 65536 _ _).symm
                    _ ≤ 65536 ^ (8 - loP.length) := pow65536_mono (by omega)
                have hv := foldHextets_lt _ _ v _ hp hb
                calc v < 65536 ^ (8 - loP.length) * 65536 ^ loP.length := hv
                  _ = 65536 ^ (8 - loP.length + loP.length) := (pow_add 65536 _ _).symm
                  _ ≤ 65536 ^ 8 := pow65536_mono (by omega)
                  _ ≤ 340282366920938463463374607431768211456 := by norm_num
    | none =>
      simp only [hIdx] at hp
      by_cases hlen : parts.length ≠ 8
      · rw [if_pos hlen] at hp; cases hp
      · rw [if_neg hlen] at hp
        by_cases hhead : (parts.headI).isEmpty = true
        · rw [if_pos hhead] at hp; cases hp
        · rw [if_neg hhead] at hp
          by_cases hlast : (parts.getLastD []).isEmpty = true
          · rw [if_pos hlast] at hp; cases hp
          · rw [if_neg hlast] at hp
            have hv := foldHextets_lt _ 0 v 1 hp (by omega)
            rw [one_mul] at hv
            calc v < 65536 ^ parts.length := hv
              _ ≤ 65536 ^ 8 := pow65536_mono (by omega)
              _ ≤ 340282366920938463463374607431768211456 := by norm_num

theorem parseIPv6_lt (l : List Char) (v : Nat) (hp : parseIPv6 l = some v) :
    v < 340282366920938463463374607431768211456 := by
  unfold parseIPv6 at hp
  simp only [] at hp
  split at hp
  · cases hp
  · split at hp
    · split at hp
      · cases hp
      · exact parseIPv6Main_lt _ v hp
    · exact parseIPv6Main_lt _ v hp

theorem maskValue_mod (v k : Nat) : maskValue v k % 2 ^ k = 0 := by
  unfold maskValue
  exact Nat.mul_mod_left _ _

theorem maskValue_le (v k : Nat) : maskValue v k ≤ v := Nat.div_mul_le_self v (2 ^ k)

theorem maskValue_idem (v k : Nat) : maskValue (maskValue v k) k = maskValue v k := by
  unfold maskValue
  rw [Nat.mul_div_cancel (H := Nat.pos_pow_of_pos _ (by norm_num))]

theorem parsePrefixLen_le (m : Nat) (l : List Char) (n : Nat)
    (hp : parsePrefixLen m l = some n) : n ≤ m := by
  unfold parsePrefixLen at hp
  split at hp
  · cases hp
  · split at hp
    · cases hp
    · dsimp only [] at hp
      split at hp
      · cases hp
      · injection hp with hp
        subst hp
        omega

theorem parsePrefixLen_decRender (m p : Nat) (hp : p ≤ m) :
    parsePrefixLen m (decRender p) = some p := by
  unfold parsePrefixLen
  rw [if_neg (by simpa [List.isEmpty_iff] using decRender_ne_nil p),
    if_neg (by simp [List.all_eq_true.mpr (decRender_all_digit p)]),
    decVal_decRender, if_neg (by omega)]

theorem mem_joinSep (sep : Char) (c : Char) :
    ∀ ps : List (List Char), c ∈ joinSep sep ps → c = sep ∨ ∃ p ∈ ps, c ∈ p
  | [], h => by simp [joinSep] at h
  | [p], h => Or.inr ⟨p, by simp, h⟩
  | p :: q :: t, h => by
    rw [show joinSep sep (p :: q :: t) = p ++ sep :: joinSep sep (q :: t) from rfl] at h
    simp only [List.mem_append, List.mem_cons] at h
    rcases h with h | h | h
    · exact Or.inr ⟨p, by simp, h⟩
    · exact Or.inl h
    · rcases mem_joinSep sep c (q :: t) h with h' | ⟨r, hr, hc⟩
      · exact Or.inl h'
      · exact Or.inr ⟨r, by simp [List.mem_cons] at hr ⊢; tauto, hc⟩

theorem renderIPv4_chars (v : Nat) : ∀ c ∈ renderIPv4 v, c.isDigit = true ∨ c = '.' := by
  intro c hc
  unfold renderIPv4 at hc
  rcases mem_joinSep '.' c _ hc with h | ⟨p, hp, hcp⟩
  · exact Or.inr h
  · simp only [List.mem_map] at hp
    obtain ⟨o, _, rfl⟩ := hp
    exact Or.inl (decRender_all_digit o c hcp)

theorem hexPieces_compress (gs : List Nat) :
    HexPieces (compressHextets (gs.map hexRender)) := by
  unfold compressHextets
  dsimp only []
  split
  · intro p hp
    simp only [List.mem_append, List.mem_singleton] at hp
    rcases hp with ((hp | hp) | hp) | hp
    · split at hp
      · simp only [List.mem_singleton] at hp
        exact Or.inl hp
      · simp at hp
    · have := List.take_subset _ _ hp
      simp only [List.mem_map] at this
      obtain ⟨g, _, rfl⟩ := this
      exact Or.inr ⟨g, rfl⟩
    · exact Or.inl hp
    · split at hp
      · simp only [List.mem_singleton] at hp
        exact Or.inl hp
      · have := List.drop_subset _ _ hp
        simp only [List.mem_map] at this
        obtain ⟨g, _, rfl⟩ := this
        exact Or.inr ⟨g, rfl⟩
  · exact hexPieces_full gs

theorem renderIPv6_chars (v : Nat) : ∀ c ∈ renderIPv6 v, isHexDigitC c = true ∨ c = ':' := by
  intro c hc
  unfold renderIPv6 at hc
  rcases mem_joinSep ':' c _ hc with h | ⟨p, hp, hcp⟩
  · exact Or.inr h
  · rcases hexPieces_compress (hextetsV6 v) p hp with rfl | ⟨g, rfl⟩
    · simp at hcp
    · exact Or.inl (hexRender_all_hex g c hcp)

theorem isSpaceC_false_of_not_space (c : Char)
    (h1 : c ≠ ' ') (h2 : c ≠ '\t') (h3 : c ≠ '\n') (h4 : c ≠ '\r')
    (h5 : c ≠ '\x0b') (h6 : c ≠ '\x0c') : isSpaceC c = false := by
  simp [isSpaceC, h1, h2, h3, h4, h5, h6]

theorem isSpaceC_false_of_digit (c : Char) (h : c.isDigit = true) : isSpaceC c = false :=
  isSpaceC_false_of_not_space c (ne_of_pred_ne h (by decide)) (ne_of_pred_ne h (by decide))
    (ne_of_pred_ne h (by decide)) (ne_of_pred_ne h (by decide))
    (ne_of_pred_ne h (by decide)) (ne_of_pred_ne h (by decide))

theorem isSpaceC_false_of_hex (c : Char) (h : isHexDigitC c = true) : isSpaceC c = false :=
  isSpaceC_false_of_not_space c (ne_of_pred_ne h (by decide)) (ne_of_pred_ne h (by decide))
    (ne_of_pred_ne h (by decide)) (ne_of_pred_ne h (by decide))
    (ne_of_pred_ne h (by decide)) (ne_of_pred_ne h (by decide))

theorem str_append_slash (a b : List Char) :
    ((⟨a⟩ : String) ++ "/" ++ (⟨b⟩ : String)).data = a ++ '/' :: b := by
  show (a ++ ['/']) ++ b = a ++ '/' :: b
  simp

theorem mem_splitOnCharL (sep c : Char) (hne : c ≠ sep) :
    ∀ l : List Char, c ∈ l → ∃ part ∈ splitOnCharL sep l, c ∈ part := by
  intro l
  induction l with
  | nil => intro h; simp at h
  | cons x xs ih =>
    intro h
    rw [List.mem_cons] at h
    rcases h with rfl | hxs
    · have hx : ¬ c = sep := hne
      refine ⟨c :: (splitOnCharL sep xs).headI, ?_, by simp⟩
      simp [splitOnCharL, hx]
    · obtain ⟨part, hpart, hcp⟩ := ih hxs
      by_cases hx : x = sep
      · exact ⟨part, by simp [splitOnCharL, hx, hpart], hcp⟩
      · obtain ⟨r0, rt, hr⟩ : ∃ r0 rt, splitOnCharL sep xs = r0 :: rt := by
          cases hr : splitOnCharL sep xs with
          | nil => exact absurd hr (splitOnCharL_ne_nil sep xs)
          | cons r0 rt => exact ⟨r0, rt, rfl⟩
        rw [hr] at hpart
        rw [List.mem_cons] at hpart
        rcases hpart with rfl | hpt
        · refine ⟨x :: part, ?_, by simp [hcp]⟩
          simp [splitOnCharL, hx, hr]
        · refine ⟨part, ?_, hcp⟩
          simp [splitOnCharL, hx, hr, hpt]

theorem parseIPv4_none_of_colon (l : List Char) (h : ':' ∈ l) : parseIPv4 l = none := by
  obtain ⟨part, hpart, hcp⟩ := mem_splitOnCharL '.' ':' (by decide) l h
  have hoct : parseOctet part = none := by
    have hne : part.isEmpty = false := by
      cases part with
      | nil => simp at hcp
      | cons y ys => rfl
    have hall : part.all Char.isDigit = false := by
      rw [List.all_eq_false]
      exact ⟨':', hcp, by decide⟩
    simp [parseOctet, hne, hall]
  unfold parseIPv4
  rcases hs : splitOnCharL '.' l with _ | ⟨a, _ | ⟨b, _ | ⟨c', _ | ⟨d, _ | ⟨e, rest⟩⟩⟩⟩⟩
  · rfl
  · rfl
  · rfl
  · rfl
  · rw [hs] at hpart
    simp only [List.mem_cons, List.not_mem_nil, or_false] at hpart
    rcases hpart with rfl | rfl | rfl | rfl
    · simp [hoct]
    · cases parseOctet a <;> simp [hoct]
    · cases parseOctet a <;> cases parseOctet b <;> simp [hoct]
    · cases parseOctet a <;> cases parseOctet b <;> cases parseOctet c' <;> simp [hoct]
  · rfl

theorem two_le_compressHextets (hs : List (List Char)) (h8 : hs.length = 8) :
    2 ≤ (compressHextets hs).length := by
  unfold compressHextets
  dsimp only []
  split
  · simp only [List.length_append, List.length_take, List.length_drop, h8,
      List.length_singleton]
    split <;> split <;> simp <;> omega
  · omega

theorem colon_mem_joinSep (ps : List (List Char)) (h2 : 2 ≤ ps.length) :
    ':' ∈ joinSep ':' ps := by
  rcases ps with _ | ⟨p, _ | ⟨q, t⟩⟩
  · simp at h2
  · simp at h2
  · rw [show joinSep ':' (p :: q :: t) = p ++ ':' :: joinSep ':' (q :: t) from rfl]
    simp

theorem colon_mem_renderIPv6 (v : Nat) : ':' ∈ renderIPv6 v := by
  unfold renderIPv6
  exact colon_mem_joinSep _ (two_le_compressHextets _ (by rw [List.length_map]; rfl))

theorem validate_cidr_reparse_v4 (v p : Nat) (hv : v < 4294967296) (hp : p ≤ 32)
    (hm : maskValue v (32 - p) = v) :
    validate_cidr ((⟨renderIPv4 v⟩ : String) ++ "/" ++ (⟨decRender p⟩ : String))
      = .ok (⟨renderIPv4 v⟩, p, "inet") := by
  have hslash1 : ∀ x ∈ renderIPv4 v, x ≠ '/' := by
    intro x hx
    rcases renderIPv4_chars v x hx with hd | rfl
    · exact ne_of_pred_ne hd (by decide)
    · decide
  have hslash2 : ∀ x ∈ decRender p, x ≠ '/' := fun x hx =>
    ne_of_pred_ne (decRender_all_digit p x hx) (by decide)
  have hns : ∀ x ∈ renderIPv4 v ++ '/' :: decRender p, isSpaceC x = false := by
    intro x hx
    simp only [List.mem_append, List.mem_cons] at hx
    rcases hx with hx | rfl | hx
    · rcases renderIPv4_chars v x hx with hd | rfl
      · exact isSpaceC_false_of_digit x hd
      · decide
    · decide
    · exact isSpaceC_false_of_digit x (decRender_all_digit p x hx)
  have hc : (renderIPv4 v ++ '/' :: decRender p).contains '/' = true :=
    List.elem_eq_true_of_mem (by simp)
  have hsplit : splitOnCharL '/' (renderIPv4 v ++ '/' :: decRender p)
      = [renderIPv4 v, decRender p] := by
    rw [splitOnCharL_append_cons _ _ _ hslash1, splitOnCharL_of_not_mem _ _ hslash2]
  have hnm : ip_network_model (renderIPv4 v) (decRender p) = some (.v4 v, p) := by
    unfold ip_network_model
    rw [parseIPv4_renderIPv4 v hv, parsePrefixLen_decRender 32 p hp]
    simp only []
    rw [hm]
  unfold validate_cidr
  rw [str_append_slash]
  dsimp only []
  rw [trimL_eq_self _ hns, if_neg (by simp [hc]), hsplit]
  simp only []
  rw [hnm]

theorem validate_cidr_reparse_v6 (v p : Nat)
    (hv : v < 340282366920938463463374607431768211456) (hp : p ≤ 128)
    (hm : maskValue v (128 - p) = v) :
    validate_cidr ((⟨renderIPv6 v⟩ : String) ++ "/" ++ (⟨decRender p⟩ : String))
      = .ok (⟨renderIPv6 v⟩, p, "inet6") := by
  have hslash1 : ∀ x ∈ renderIPv6 v, x ≠ '/' := by
    intro x hx
    rcases renderIPv6_chars v x hx with hd | rfl
    · exact ne_of_pred_ne hd (by decide)
    · decide
  have hslash2 : ∀ x ∈ decRender p, x ≠ '/' := fun x hx =>
    ne_of_pred_ne (decRender_all_digit p x hx) (by decide)
  have hns : ∀ x ∈ renderIPv6 v ++ '/' :: decRender p, isSpaceC x = false := by
    intro x hx
    simp only [List.mem_append, List.mem_cons] at hx
    rcases hx with hx | rfl | hx
    · rcases renderIPv6_chars v x hx with hd | rfl
      · exact isSpaceC_false_of_hex x hd
      · decide
    · decide
    · exact isSpaceC_false_of_digit x (decRender_all_digit p x hx)
  have hc : (renderIPv6 v ++ '/' :: decRender p).contains '/' = true :=
    List.elem_eq_true_of_mem (by simp)
  have hsplit : splitOnCharL '/' (renderIPv6 v ++ '/' :: decRender p)
      = [renderIPv6 v, decRender p] := by
    rw [splitOnCharL_append_cons _ _ _ hslash1, splitOnCharL_of_not_mem _ _ hslash2]
  have hnm : ip_network_model (renderIPv6 v) (decRender p) = some (.v6 v, p) := by
    unfold ip_network_model
    rw [parseIPv4_none_of_colon _ (colon_mem_renderIPv6 v)]
    simp only []
    rw [parseIPv6_renderIPv6 v hv, parsePrefixLen_decRender 128 p hp]
    simp only []
    rw [hm]
  unfold validate_cidr
  rw [str_append_slash]
  dsimp only []
  rw [trimL_eq_self _ hns, if_neg (by simp [hc]), hsplit]
  simp only []
  rw [hnm]

theorem maskValue_zero (v : Nat) : maskValue v 0 = v := by
  unfold maskValue
  simp

theorem ip_network_model_ok_shape (a b : List Char) (ip : IPAddr) (pl : Nat)
    (h : ip_network_model a b = some (ip, pl)) :
    (∃ w, parseIPv4 a = some w ∧ parsePrefixLen 32 b = some pl ∧
       ip = .v4 (maskValue w (32 - pl))) ∨
    (∃ w, parseIPv6 a = some w ∧ parsePrefixLen 128 b = some pl ∧
       ip = .v6 (maskValue w (128 - pl))) := by
  unfold ip_network_model at h
  cases h4 : parseIPv4 a with
  | some w =>
    cases hb4 : parsePrefixLen 32 b with
    | some pl' =>
      rw [h4, hb4] at h
      simp only [Option.some.injEq, Prod.mk.injEq] at h
      exact Or.inl ⟨w, rfl, congrArg some h.2, by rw [← h.1, h.2]⟩
    | none =>
      rw [h4, hb4] at h
      simp only [] at h
      cases h6 : parseIPv6 a with
      | some w =>
        cases hb6 : parsePrefixLen 128 b with
        | some pl' =>
          rw [h6, hb6] at h
          simp only [Option.some.injEq, Prod.mk.injEq] at h
          exact Or.inr ⟨w, rfl, congrArg some h.2, by rw [← h.1, h.2]⟩
        | none => rw [h6, hb6] at h; cases h
      | none =>
        rw [h6] at h
        cases hb6 : parsePrefixLen 128 b <;> rw [hb6] at h <;> cases h
  | none =>
    rw [h4] at h
    simp only [] at h
    cases h6 : parseIPv6 a with
    | some w =>
      cases hb6 : parsePrefixLen 128 b with
      | some pl' =>
        rw [h6, hb6] at h
        simp only [Option.some.injEq, Prod.mk.injEq] at h
        exact Or.inr ⟨w, rfl, congrArg some h.2, by rw [← h.1, h.2]⟩
      | none => rw [h6, hb6] at h; cases h
    | none =>
      rw [h6] at h
      cases hb6 : parsePrefixLen 128 b <;> rw [hb6] at h <;> cases h

theorem validate_cidr_ok_shape (x addr : String) (p : Nat) (fam : String)
    (h : validate_cidr x = .ok (addr, p, fam)) :
    (∃ v, v < 4294967296 ∧ addr = (⟨renderIPv4 v⟩ : String) ∧
       maskValue v (32 - p) = v ∧ p ≤ 32 ∧ fam = "inet") ∨
    (∃ v, v < 340282366920938463463374607431768211456 ∧
       addr = (⟨renderIPv6 v⟩ : String) ∧
       maskValue v (128 - p) = v ∧ p ≤ 128 ∧ fam = "inet6") := by
  unfold validate_cidr at h
  dsimp only [] at h
  split at h
  · cases hip : ip_address_model (trimL x.data) with
    | none => rw [hip] at h; cases h
    | some a =>
      cases a with
      | v4 v =>
        rw [hip] at h
        simp only [Except.ok.injEq, Prod.mk.injEq] at h
        obtain ⟨rfl, rfl, rfl⟩ := h
        unfold ip_address_model at hip
        cases h4 : parseIPv4 (trimL x.data) with
        | some w =>
          rw [h4] at hip
          simp only [Option.some.injEq, IPAddr.v4.injEq] at hip
          subst hip
          exact Or.inl ⟨w, parseIPv4_lt _ w h4, rfl, by simpa using maskValue_zero w,
            le_refl 32, rfl⟩
        | none =>
          rw [h4] at hip
          simp only [] at hip
          cases h6 : parseIPv6 (trimL x.data) <;> rw [h6] at hip <;> cases hip
      | v6 v =>
        rw [hip] at h
        simp only [Except.ok.injEq, Prod.mk.injEq] at h
        obtain ⟨rfl, rfl, rfl⟩ := h
        unfold ip_address_model at hip
        cases h4 : parseIPv4 (trimL x.data) with
        | some w => rw [h4] at hip; cases hip
        | none =>
          rw [h4] at hip
          simp only [] at hip
          cases h6 : parseIPv6 (trimL x.data) with
          | some w =>
            rw [h6] at hip
            simp only [Option.some.injEq, IPAddr.v6.injEq] at hip
            subst hip
            exact Or.inr ⟨w, parseIPv6_lt _ w h6, rfl, by simpa using maskValue_zero w,
              le_refl 128, rfl⟩
          | none => rw [h6] at hip; cases hip
  · rcases hs : splitOnCharL '/' (trimL x.data) with _ | ⟨a, _ | ⟨b, _ | ⟨c', rest⟩⟩⟩
    · rw [hs] at h; cases h
    · rw [hs] at h; cases h
    · rw [hs] at h
      simp only [] at h
      cases hn : ip_network_model a b with
      | none => rw [hn] at h; cases h
      | some pr =>
        obtain ⟨ip, pl⟩ := pr
        rw [hn] at h
        cases ip with
        | v4 net =>
          simp only [Except.ok.injEq, Prod.mk.injEq] at h
          obtain ⟨rfl, rfl, rfl⟩ := h
          rcases ip_network_model_ok_shape a b _ pl hn with
            ⟨w, hw, hpl, hnet⟩ | ⟨w, _, _, hnet⟩
          · injection hnet with hnet
            refine Or.inl ⟨maskValue w (32 - pl), ?_, by rw [hnet], ?_,
              parsePrefixLen_le _ _ _ hpl, rfl⟩
            · exact lt_of_le_of_lt (maskValue_le w _) (parseIPv4_lt _ w hw)
            · exact maskValue_idem w _
          · cases hnet
        | v6 net =>
          simp only [Except.ok.injEq, Prod.mk.injEq] at h
          obtain ⟨rfl, rfl, rfl⟩ := h
          rcases ip_network_model_ok_shape a b _ pl hn with
            ⟨w, _, _, hnet⟩ | ⟨w, hw, hpl, hnet⟩
          · cases hnet
          · injection hnet with hnet
            refine Or.inr ⟨maskValue w (128 - pl), ?_, by rw [hnet], ?_,
              parsePrefixLen_le _ _ _ hpl, rfl⟩
            · exact lt_of_le_of_lt (maskValue_le w _) (parseIPv6_lt _ w hw)
            · exact maskValue_idem w _
    · rw [hs] at h; cases h

/-- Claim C2: for every token with an explicit prefix, `validate_cidr`
returns the network address with all host bits beyond the prefix cleared
(the rendering of `maskValue` of the parsed input address), regardless
of whether the input address had them set, for IPv4 and IPv6 alike; in
particular `"192.168.1.100/24"` canonicalizes to
`("192.168.1.0", 24, "inet")`. -/
theorem claim_C2 :
    (∀ (x : String) (a b : List Char) (w pl : Nat),
        (trimL x.data).contains '/' = true →
        splitOnCharL '/' (trimL x.data) = [a, b] →
        parseIPv4 a = some w → parsePrefixLen 32 b = some pl →
        validate_cidr x
          = .ok ((⟨renderIPv4 (maskValue w (32 - pl))⟩ : String), pl, "inet")) ∧
    (∀ (x : String) (a b : List Char) (w pl : Nat),
        (trimL x.data).contains '/' = true →
        splitOnCharL '/' (trimL x.data) = [a, b] →
        parseIPv4 a = none → parseIPv6 a = some w → parsePrefixLen 128 b = some pl →
        validate_cidr x
          = .ok ((⟨renderIPv6 (maskValue w (128 - pl))⟩ : String), pl, "inet6")) ∧
    validate_cidr "192.168.1.100/24" = .ok ("192.168.1.0", 24, "inet") := by
  refine ⟨?_, ?_, by decide⟩
  · intro x a b w pl hc hsplit hw hpl
    unfold validate_cidr
    dsimp only []
    rw [if_neg (by rw [hc]; simp), hsplit]
    simp only []
    unfold ip_network_model
    rw [hw, hpl]
  · intro x a b w pl hc hsplit h4 hw hpl
    unfold validate_cidr
    dsimp only []
    rw [if_neg (by rw [hc]; simp), hsplit]
    simp only []
    unfold ip_network_model
    rw [h4]
    simp only []
    rw [hw, hpl]

theorem claim_C2_witness :
    validate_cidr "192.168.1.100/24"
      = .ok ((⟨renderIPv4 (maskValue 3232235876 (32 - 24))⟩ : String), 24, "inet") ∧
    (⟨renderIPv4 (maskValue 3232235876 (32 - 24))⟩ : String) = "192.168.1.0" :=
  ⟨claim_C2.1 "192.168.1.100/24" "192.168.1.100".data "24".data 3232235876 24
      (by decide) (by decide) (by decide) (by decide),
   by decide⟩

/-- Claim C8: canonicalization is idempotent.  Whenever `validate_cidr`
succeeds with network address `addr`, prefix length `p` and family
`fam`, running it again on the `"<network-address>/<prefix-length>"`
rendering (the string form built by `parse_ip_entry`) yields the same
`(addr, p, fam)`, for IPv4 and IPv6 alike. -/
theorem claim_C8 (x addr : String) (p : Nat) (fam : String)
    (h : validate_cidr x = .ok (addr, p, fam)) :
    validate_cidr (addr ++ "/" ++ (⟨decRender p⟩ : String)) = .ok (addr, p, fam) := by
  rcases validate_cidr_ok_shape x addr p fam h with
    ⟨v, hv, rfl, hm, hp, rfl⟩ | ⟨v, hv, rfl, hm, hp, rfl⟩
  · exact validate_cidr_reparse_v4 v p hv hp hm
  · exact validate_cidr_reparse_v6 v p hv hp hm

theorem claim_C8_witness :
    validate_cidr "192.168.1.100/24" = .ok ("192.168.1.0", 24, "inet") ∧
    validate_cidr ("192.168.1.0" ++ "/" ++ (⟨decRender 24⟩ : String))
      = .ok ("192.168.1.0", 24, "inet") :=
  ⟨by decide, claim_C8 "192.168.1.100/24" "192.168.1.0" 24 "inet" (by decide)⟩

theorem string_ne_of_head_ne {s t : String} {c d : Char} (hc : s.data.head? = some c)
    (hd : t.data.head? = some d) (hne : c ≠ d) : s ≠ t := by
  intro he
  subst he
  rw [hc] at hd
  injection hd with hd
  exact hne hd

theorem fetchMsg_http_head (code : Nat) (url : String) :
    (fetchErrorMessage (.httpError code url)).data.head? = some 'H' := by
  show ("HTTP error " ++ (⟨decRender code⟩ : String) ++ ": " ++ url).data.head? = some 'H'
  rw [String.data_append, String.data_append, String.data_append]
  rfl

theorem fetchMsg_url_head (reason url : String) :
    (fetchErrorMessage (.urlError reason url)).data.head? = some 'U' := by
  show ("URL error: " ++ reason ++ " - " ++ url).data.head? = some 'U'
  rw [String.data_append, String.data_append, String.data_append]
  rfl

theorem fetchMsg_timeout_head (url : String) :
    (fetchErrorMessage (.timeout url)).data.head? = some 'T' := by
  show ("Timeout fetching " ++ url).data.head? = some 'T'
  rw [String.data_append]
  rfl

/-- Claim C4 counterexample: `exceptions.py` defines a single `FetchError`
class; a non-2xx HTTP status, a connection failure and a timeout all
raise that same one exception class, not three distinguishable subtypes. -/
theorem claim_C4_counterexample :
    fetchRaisedClass (.httpError 404 "http://example.org/list")
      = fetchRaisedClass (.urlError "Connection refused" "http://example.org/list") ∧
    fetchRaisedClass (.urlError "Connection refused" "http://example.org/list")
      = fetchRaisedClass (.timeout "http://example.org/list") ∧
    fetchRaisedClass (.httpError 404 "http://example.org/list") = ExcClass.fetch :=
  ⟨rfl, rfl, rfl⟩

/-- Claim C4 (amended): all three transport failures raise the single
class `FetchError`; the three failure kinds are distinguishable only by
the message text, whose three forms are pairwise distinct, and each
message carries the URL (the HTTP form also the status code). -/
theorem claim_C4 (code : Nat) (reason url : String) :
    fetchRaisedClass (.httpError code url) = .fetch ∧
    fetchRaisedClass (.urlError reason url) = .fetch ∧
    fetchRaisedClass (.timeout url) = .fetch ∧
    fetchErrorMessage (.httpError code url) ≠ fetchErrorMessage (.urlError reason url) ∧
    fetchErrorMessage (.httpError code url) ≠ fetchErrorMessage (.timeout url) ∧
    fetchErrorMessage (.urlError reason url) ≠ fetchErrorMessage (.timeout url) ∧
    (fetchErrorMessage (.httpError code url)).data
      = ("HTTP error ").data ++ decRender code ++ (": ").data ++ url.data ∧
    (fetchErrorMessage (.urlError reason url)).data
      = ("URL error: ").data ++ reason.data ++ (" - ").data ++ url.data ∧
    (fetchErrorMessage (.timeout url)).data = ("Timeout fetching ").data ++ url.data := by
  refine ⟨rfl, rfl, rfl,
    string_ne_of_head_ne (fetchMsg_http_head code url) (fetchMsg_url_head reason url)
      (by decide),
    string_ne_of_head_ne (fetchMsg_http_head code url) (fetchMsg_timeout_head url)
      (by decide),
    string_ne_of_head_ne (fetchMsg_url_head reason url) (fetchMsg_timeout_head url)
      (by decide), ?_, ?_, ?_⟩
  · show ("HTTP error " ++ (⟨decRender code⟩ : String) ++ ": " ++ url).data = _
    rw [String.data_append, String.data_append, String.data_append]
  · show ("URL error: " ++ reason ++ " - " ++ url).data = _
    rw [String.data_append, String.data_append, String.data_append]
  · show ("Timeout fetching " ++ url).data = _
    rw [String.data_append]

/-- Claim C5 counterexample: because Python's `re.match` lets `$` match
just before a trailing newline, `validate_list_name` accepts
`"abc\n"`, a string containing a character outside the documented
alphanumeric/underscore/hyphen set. -/
theorem claim_C5_counterexample :
    validate_list_name "abc\n" = .ok true ∧
    isNameTailChar '\n' = false ∧ ("abc\n").data.length = 4 := by
  decide

/-- Claim C5 (amended): `validate_list_name` accepts a string iff after
discounting one optional trailing newline the remainder is 1-31
characters, starts with a letter and continues with
alphanumeric/underscore/hyphen characters; names of length 31 are
accepted, length 32 rejected, and names starting with a digit or an
underscore are rejected. -/
theorem claim_C5 (name : String) :
    (validate_list_name name = .ok true ↔
      ∃ l : List Char, (name.data = l ∨ name.data = l ++ ['\n']) ∧
        ∃ c cs, l = c :: cs ∧ isNameHeadChar c = true ∧ cs.length ≤ 30 ∧
          cs.all isNameTailChar = true) ∧
    validate_list_name "aaaaaaaaaaaaaaaaaaaaaaaaaaaaaaa" = .ok true ∧
    validate_list_name "aaaaaaaaaaaaaaaaaaaaaaaaaaaaaaaa" ≠ .ok true ∧
    validate_list_name "9abc" ≠ .ok true ∧
    validate_list_name "_abc" ≠ .ok true := by
  refine ⟨⟨?_, ?_⟩, by decide, by decide, by decide, by decide⟩
  · intro h
    unfold validate_list_name at h
    split at h
    · cases h
    · split at h
      · rename_i hne hm
        unfold matchesListNamePattern at hm
        split at hm
        · rename_i hlast
          refine ⟨name.data.dropLast, Or.inr ?_, ?_⟩
          · have hnn : name.data ≠ [] := by
              intro h0
              rw [h0] at hlast
              cases hlast
            conv_lhs => rw [← List.dropLast_append_getLast hnn]
            rw [List.getLast_eq_iff_getLast?_eq_some hnn |>.mpr hlast]
          · cases hd : name.data.dropLast with
            | nil => rw [hd] at hm; cases hm
            | cons c cs =>
              rw [hd] at hm
              unfold lnameBody at hm
              simp only [Bool.and_eq_true, decide_eq_true_eq] at hm
              exact ⟨c, cs, rfl, hm.1.1, hm.1.2, hm.2⟩
        · cases hd : name.data with
          | nil => rw [hd] at hm; cases hm
          | cons c cs =>
            rw [hd] at hm
            unfold lnameBody at hm
            simp only [Bool.and_eq_true, decide_eq_true_eq] at hm
            exact ⟨c :: cs, Or.inl rfl, c, cs, rfl, hm.1.1, hm.1.2, hm.2⟩
      · cases h
  · rintro ⟨l, hl, c, cs, rfl, hhead, hlen, htail⟩
    have hlast_ne : ∀ x, (c :: cs).getLast? = some x → x ≠ '\n' := by
      intro x hx hx'
      subst hx'
      have hmem : '\n' ∈ c :: cs := by
        have := List.getLast?_eq_getLast (c :: cs) (by simp) ▸ hx
        injection this with this
        rw [← this]
        exact List.getLast_mem _
      rw [List.mem_cons] at hmem
      rcases hmem with rfl | hmem
      · cases hhead
      · have := List.all_eq_true.mp htail _ hmem
        cases this
    have hbody : lnameBody (c :: cs) = true := by
      unfold lnameBody
      simp only [Bool.and_eq_true, decide_eq_true_eq]
      exact ⟨⟨hhead, hlen⟩, htail⟩
    have hne : name ≠ "" := by
      intro h0
      subst h0
      rcases hl with hl | hl <;> cases hl
    have hm : matchesListNamePattern name.data = true := by
      unfold matchesListNamePattern
      rcases hl with hl | hl
      · rw [hl]
        rw [if_neg ?_]
        · exact hbody
        · intro hx
          exact hlast_ne '\n' hx rfl
      · rw [hl]
        rw [if_pos (by rw [List.getLast?_concat]), List.dropLast_concat]
        exact hbody
    unfold validate_list_name
    rw [if_neg hne, if_pos hm]

/-- Claim C6 counterexample: distinct valid names can collide: the
27-`a` and 28-`a` names share one staging name, and the staging name of
the 26-`a` name is itself another valid target name (the 30-character
name whose staging name is even itself). -/
theorem claim_C6_counterexample :
    validate_list_name "aaaaaaaaaaaaaaaaaaaaaaaaaaa" = .ok true ∧
    validate_list_name "aaaaaaaaaaaaaaaaaaaaaaaaaaaa" = .ok true ∧
    "aaaaaaaaaaaaaaaaaaaaaaaaaaa" ≠ "aaaaaaaaaaaaaaaaaaaaaaaaaaaa" ∧
    stagingName "aaaaaaaaaaaaaaaaaaaaaaaaaaa"
      = stagingName "aaaaaaaaaaaaaaaaaaaaaaaaaaaa" ∧
    stagingName "aaaaaaaaaaaaaaaaaaaaaaaaaa" = "aaaaaaaaaaaaaaaaaaaaaaaaaa_tmp" ∧
    validate_list_name "aaaaaaaaaaaaaaaaaaaaaaaaaa_tmp" = .ok true ∧
    stagingName "aaaaaaaaaaaaaaaaaaaaaaaaaa_tmp" = "aaaaaaaaaaaaaaaaaaaaaaaaaa_tmp" := by
  decide

/-- Claim C6 (amended): the staging name is a deterministic function of
the target name of length at most 31 (in fact at most 30); it differs
from its own target whenever the target's length is not exactly 30; and
on targets of length at most 26 (where no truncation occurs) distinct
targets have distinct staging names. -/
theorem claim_C6 (n1 n2 : String) :
    (stagingName n1).data.length ≤ 31 ∧
    (n1.data.length ≠ 30 → stagingName n1 ≠ n1) ∧
    (n1.data.length ≤ 26 → n2.data.length ≤ 26 → n1 ≠ n2 →
      stagingName n1 ≠ stagingName n2) := by
  refine ⟨?_, ?_, ?_⟩
  · show (n1.data.take 26 ++ ['_', 't', 'm', 'p']).length ≤ 31
    simp only [List.length_append, List.length_take, List.length_cons, List.length_nil]
    omega
  · intro h30 he
    have hlen := congrArg (fun s => s.data.length) he
    simp only [] at hlen
    rw [show (stagingName n1).data = n1.data.take 26 ++ ['_', 't', 'm', 'p'] from rfl,
      List.length_append, List.length_take] at hlen
    simp only [List.length_cons, List.length_nil] at hlen
    omega
  · intro h1 h2 hne he
    apply hne
    have hd : (stagingName n1).data = (stagingName n2).data := congrArg String.data he
    rw [show (stagingName n1).data = n1.data.take 26 ++ ['_', 't', 'm', 'p'] from rfl,
      show (stagingName n2).data = n2.data.take 26 ++ ['_', 't', 'm', 'p'] from rfl,
      List.take_of_length_le h1, List.take_of_length_le h2] at hd
    have := List.append_cancel_right hd
    cases n1
    cases n2
    simp only [] at this
    rw [this]

/-- Claim C7: when fetching and parsing yield zero valid entries, the
CLI update path returns exit code 0 without invoking the set-update
operation: the kernel state is unchanged and no control-plane command is
issued. -/
theorem claim_C7 (o : Oracle) (cfg : ListConfig) (content : String) (k : KState)
    (h : (parse_ip_list content).1 = []) :
    cli_do_update o cfg (parse_ip_list content) k = (.ok 0, k, []) := by
  unfold cli_do_update
  dsimp only []
  rw [h]
  rfl

theorem claim_C7_witness :
    cli_do_update ⟨fun _ => false, false, 0, false⟩
      ⟨"mylist", "http://example.org/list", DEFAULT_PERIODIC, DEFAULT_IPSET_TYPE,
        DEFAULT_IPSET_FAMILY, DEFAULT_MAX_ENTRIES, true⟩
      (parse_ip_list "# comment only\nnot-an-ip") [] = (.ok 0, [], []) :=
  claim_C7 ⟨fun _ => false, false, 0, false⟩
    ⟨"mylist", "http://example.org/list", DEFAULT_PERIODIC, DEFAULT_IPSET_TYPE,
      DEFAULT_IPSET_FAMILY, DEFAULT_MAX_ENTRIES, true⟩
    "# comment only\nnot-an-ip" [] (by decide)

theorem destroy_missing (name : String) (k : KState) (b : Bool)
    (hv : validate_list_name name = .ok b)
    (h : (k.lookup name).isSome = false) :
    destroySet name k = (.ok false, k, [.listName name]) := by
  unfold destroySet
  rw [hv]
  dsimp only [existsSet]
  rw [h]
  rfl

theorem create_exists (o : Oracle) (name stype family : String) (maxElem : Nat)
    (k : KState) (b : Bool) (hv : validate_list_name name = .ok b)
    (h : (k.lookup name).isSome = true) :
    createSet o name stype family maxElem k = (.ok false, k, [.listName name]) := by
  unfold createSet
  rw [hv]
  dsimp only [existsSet]
  rw [h]
  rfl

/-- Claim C9: for a valid set name, destroying a missing set is a
harmless no-op — it returns `False`, issues only the existence probe and
no `destroy` command, and raises nothing — and symmetrically creating an
existing set returns `False` without issuing a `create` command. -/
theorem claim_C9 (o : Oracle) (name stype family : String) (maxElem : Nat)
    (k : KState) (b : Bool) (hv : validate_list_name name = .ok b) :
    ((k.lookup name).isSome = false →
      destroySet name k = (.ok false, k, [.listName name])) ∧
    ((k.lookup name).isSome = true →
      createSet o name stype family maxElem k = (.ok false, k, [.listName name])) :=
  ⟨destroy_missing name k b hv, create_exists o name stype family maxElem k b hv⟩

theorem claim_C9_witness :
    destroySet "good" [] = (.ok false, [], [.listName "good"]) ∧
    createSet ⟨fun _ => false, false, 0, false⟩ "good" "hash:net" "inet" 65536
        [("good", ⟨"hash:net", "inet", 65536, []⟩)]
      = (.ok false, [("good", ⟨"hash:net", "inet", 65536, []⟩)], [.listName "good"]) :=
  ⟨(claim_C9 ⟨fun _ => false, false, 0, false⟩ "good" "hash:net" "inet" 65536 [] true
      (by decide)).1 (by decide),
   (claim_C9 ⟨fun _ => false, false, 0, false⟩ "good" "hash:net" "inet" 65536
      [("good", ⟨"hash:net", "inet", 65536, []⟩)] true (by decide)).2 (by decide)⟩

theorem claim_C5_witness :
    validate_list_name "abc-1" = .ok true :=
  (claim_C5 "abc-1").1.mpr
    ⟨['a', 'b', 'c', '-', '1'], Or.inl rfl, 'a', ['b', 'c', '-', '1'],
      rfl, by decide, by decide, by decide⟩

theorem claim_C6_witness :
    stagingName "abc" ≠ "abc" ∧ stagingName "abc" ≠ stagingName "abd" :=
  ⟨(claim_C6 "abc" "abd").2.1 (by decide),
   (claim_C6 "abc" "abd").2.2 (by decide) (by decide) (by decide)⟩

theorem lookup_cons_ne (n a : String) (d : SetData) (k : KState) (h : n ≠ a) :
    ((a, d) :: k).lookup n = k.lookup n := by
  simp only [List.lookup]
  rw [show (n == a) = false from beq_eq_false_iff_ne.mpr h]

theorem lookup_filter_ne (n t : String) (k : KState) (h : n ≠ t) :
    (k.filter (fun p => p.1 ≠ t)).lookup n = k.lookup n := by
  induction k with
  | nil => rfl
  | cons a k ih =>
    obtain ⟨a1, a2⟩ := a
    by_cases ha : a1 = t
    · subst ha
      rw [List.filter_cons_of_neg (by simp)]
      rw [ih, lookup_cons_ne n a1 a2 k h]
    · rw [List.filter_cons_of_pos (by simp [ha])]
      by_cases hn : n = a1
      · subst hn
        simp [List.lookup]
      · rw [lookup_cons_ne n a1 a2 _ hn, lookup_cons_ne n a1 a2 k hn, ih]

theorem lookup_filter_self (t : String) (k : KState) :
    (k.filter (fun p => p.1 ≠ t)).lookup t = none := by
  induction k with
  | nil => rfl
  | cons a k ih =>
    obtain ⟨a1, a2⟩ := a
    by_cases ha : a1 = t
    · subst ha
      rw [List.filter_cons_of_neg (by simp)]
      exact ih
    · rw [List.filter_cons_of_pos (by simp [ha])]
      rw [lookup_cons_ne t a1 a2 _ (fun he => ha he.symm)]
      exact ih

theorem lookup_setStore_ne (n t : String) (d : SetData) (k : KState) (h : n ≠ t) :
    (setStore k t d).lookup n = k.lookup n := by
  induction k with
  | nil => rfl
  | cons a k ih =>
    obtain ⟨a1, a2⟩ := a
    unfold setStore
    simp only [List.map_cons]
    by_cases ha : a1 = t
    · subst ha
      rw [if_pos rfl]
      rw [lookup_cons_ne n a1 d _ h, lookup_cons_ne n a1 a2 k h]
      exact ih
    · rw [if_neg (by simpa using ha)]
      by_cases hn : n = a1
      · subst hn
        simp [List.lookup]
      · rw [lookup_cons_ne n a1 a2 _ hn, lookup_cons_ne n a1 a2 k hn]
        exact ih

theorem lookup_setStore_isSome (t : String) (d : SetData) (k : KState) :
    ((setStore k t d).lookup t).isSome = (k.lookup t).isSome := by
  induction k with
  | nil => rfl
  | cons a k ih =>
    obtain ⟨a1, a2⟩ := a
    unfold setStore
    simp only [List.map_cons]
    by_cases ha : a1 = t
    · subst ha
      rw [if_pos rfl]
      simp [List.lookup]
    · rw [if_neg (by simpa using ha)]
      rw [lookup_cons_ne t a1 a2 _ (fun he => ha he.symm),
        lookup_cons_ne t a1 a2 k (fun he => ha he.symm)]
      exact ih

theorem isSome_false_eq_none {α : Type} {x : Option α} (h : x.isSome = false) : x = none := by
  cases x
  · rfl
  · cases h

theorem destroy_exists (name : String) (k : KState) (b : Bool)
    (hv : validate_list_name name = .ok b) (h : (k.lookup name).isSome = true) :
    destroySet name k = (.ok true, k.filter (fun p => p.1 ≠ name),
      [.listName name, .destroy name]) := by
  unfold destroySet
  rw [hv]
  dsimp only [existsSet]
  rw [h]
  rfl

theorem create_missing (o : Oracle) (n stype family : String) (maxElem : Nat) (k : KState)
    (b : Bool) (hv : validate_list_name n = .ok b) (h : (k.lookup n).isSome = false) :
    createSet o n stype family maxElem k =
      if o.createFails n then
        (.error (.ipset "ipset command failed: create"), k,
          [.listName n, .create n stype family maxElem])
      else (.ok true, (n, ⟨stype, family, maxElem, []⟩) :: k,
        [.listName n, .create n stype family maxElem]) := by
  unfold createSet
  rw [hv]
  dsimp only [existsSet]
  rw [h]
  rfl

theorem add_many_found (o : Oracle) (n : String) (entries : List String) (k : KState)
    (d : SetData) (hne : entries.isEmpty = false) (hl : k.lookup n = some d) :
    add_many o n entries k =
      if o.restoreFails then
        (.error (.ipset "ipset command failed: restore"),
          setStore k n (applyAdds d (entries.take o.restoreLoaded)),
          [.restore (restoreLines n entries)])
      else (.ok entries.length, setStore k n (applyAdds d entries),
        [.restore (restoreLines n entries)]) := by
  unfold add_many
  rw [hne, hl]
  rfl

theorem swapSets_found (o : Oracle) (a b : String) (k : KState) (da db : SetData)
    (ha : k.lookup a = some da) (hb : k.lookup b = some db) :
    swapSets o a b k =
      if o.swapFails ∨ da.stype ≠ db.stype ∨ da.family ≠ db.family then
        (.error (.ipset "ipset command failed: swap"), k, [.swap a b])
      else (.ok (), setStore (setStore k a db) b da, [.swap a b]) := by
  unfold swapSets
  rw [ha, hb]

theorem cleanupTemp_spec (e : Err) (temp : String) (k : KState) (tr : List Cmd) (b : Bool)
    (hvt : validate_list_name temp = .ok b) :
    (cleanupTemp e temp k tr).1 = .error e ∧
    (cleanupTemp e temp k tr).2.1.lookup temp = none ∧
    ∀ m, m ≠ temp → (cleanupTemp e temp k tr).2.1.lookup m = k.lookup m := by
  unfold cleanupTemp
  dsimp only [existsSet]
  by_cases hex : (k.lookup temp).isSome = true
  · rw [hex]
    rw [if_pos rfl, destroy_exists temp k b hvt hex]
    exact ⟨rfl, lookup_filter_self temp k, fun m hm => lookup_filter_ne m temp k hm⟩
  · have hex' : (k.lookup temp).isSome = false := by
      revert hex
      cases (k.lookup temp).isSome <;> simp
    rw [hex']
    rw [if_neg (by simp)]
    exact ⟨rfl, isSome_false_eq_none hex', fun m hm => rfl⟩

theorem lnameBody_no_newline (l : List Char) (h : lnameBody l = true) :
    l.getLast? ≠ some '\n' := by
  intro hx
  cases hd : l with
  | nil => rw [hd] at hx; cases hx
  | cons c cs =>
    rw [hd] at h hx
    unfold lnameBody at h
    simp only [Bool.and_eq_true, decide_eq_true_eq] at h
    have hmem : '\n' ∈ c :: cs := by
      have h1 := List.getLast?_eq_getLast (c :: cs) (by simp)
      rw [h1] at hx
      injection hx with hx
      rw [← hx]
      exact List.getLast_mem _
    rw [List.mem_cons] at hmem
    rcases hmem with rfl | hmem
    · cases h.1.1
    · have := List.all_eq_true.mp h.2 _ hmem
      cases this

theorem lnameBody_validate (name : String) (hbody : lnameBody name.data = true) :
    validate_list_name name = .ok true := by
  have hne : name ≠ "" := by
    intro h0
    subst h0
    exact absurd hbody (by decide)
  unfold validate_list_name
  rw [if_neg hne, if_pos ?_]
  unfold matchesListNamePattern
  rw [if_neg (lnameBody_no_newline name.data hbody)]
  exact hbody

theorem stagingName_validate (name : String) (hbody : lnameBody name.data = true) :
    validate_list_name (stagingName name) = .ok true := by
  apply lnameBody_validate
  cases hd : name.data with
  | nil => rw [hd] at hbody; exact absurd hbody (by decide)
  | cons c cs =>
    have hsd : (stagingName name).data = c :: (cs.take 25 ++ ['_', 't', 'm', 'p']) := by
      show name.data.take 26 ++ ['_', 't', 'm', 'p'] = _
      rw [hd]
      rfl
    rw [hsd]
    rw [hd] at hbody
    unfold lnameBody at hbody ⊢
    simp only [Bool.and_eq_true, decide_eq_true_eq] at hbody ⊢
    refine ⟨⟨hbody.1.1, ?_⟩, ?_⟩
    · rw [List.length_append, List.length_take]
      simp only [List.length_cons, List.length_nil]
      omega
    · simp only [List.all_append, Bool.and_eq_true]
      refine ⟨?_, by decide⟩
      rw [List.all_eq_true]
      intro x hx
      exact List.all_eq_true.mp hbody.2 x (List.take_subset _ _ hx)

theorem lookup_setStore_eq (t : String) (d : SetData) (k : KState)
    (h : (k.lookup t).isSome = true) : (setStore k t d).lookup t = some d := by
  induction k with
  | nil => cases h
  | cons a k ih =>
    obtain ⟨a1, a2⟩ := a
    unfold setStore
    simp only [List.map_cons]
    by_cases ha : a1 = t
    · subst ha
      rw [if_pos rfl]
      simp [List.lookup]
    · rw [if_neg (by simpa using ha)]
      rw [lookup_cons_ne t a1 a2 _ (fun he => ha he.symm)]
      rw [lookup_cons_ne t a1 a2 k (fun he => ha he.symm)] at h
      exact ih h

theorem updateTry_error_preserves (o : Oracle) (name temp : String)
    (entries : List String) (stype family : String) (maxElem : Nat) (k : KState) (e : Err)
    (hnt : name ≠ temp)
    (hks : (k.lookup name).isSome = true)
    (hvt : validate_list_name temp = .ok true)
    (herr : (updateTry o name temp entries stype family maxElem k).1 = .error e) :
    (updateTry o name temp entries stype family maxElem k).2.1.lookup name
      = k.lookup name := by
  unfold updateTry at herr ⊢
  cases hv : validate_list_name name with
  | error m =>
    have hc : createSet o name stype family maxElem k = (.error (.validation m), k, []) := by
      unfold createSet
      rw [hv]
    rw [hc]
  | ok b =>
    rw [create_exists o name stype family maxElem k b hv hks] at herr ⊢
    dsimp only [existsSet] at herr ⊢
    obtain ⟨bb, k2, t2, hred, hk2, h2⟩ :
        ∃ bb k2 t2,
          (if (k.lookup temp).isSome then destroySet temp k
           else ((.ok false : Except Err Bool), k, ([] : List Cmd)))
            = ((.ok bb : Except Err Bool), k2, t2)
          ∧ k2.lookup name = k.lookup name ∧ (k2.lookup temp).isSome = false := by
      by_cases hstale : (k.lookup temp).isSome = true
      · refine ⟨true, k.filter (fun p => p.1 ≠ temp), [.listName temp, .destroy temp],
          ?_, lookup_filter_ne name temp k hnt, ?_⟩
        · rw [if_pos hstale, destroy_exists temp k true hvt hstale]
        · rw [lookup_filter_self]
          rfl
      · have hstale' : (k.lookup temp).isSome = false := by
          revert hstale
          cases (k.lookup temp).isSome <;> simp
        exact ⟨false, k, [], by rw [if_neg (by simp [hstale'])], rfl, hstale'⟩
    rw [hred] at herr ⊢
    dsimp only [] at herr ⊢
    rw [create_missing o temp stype family maxElem k2 true hvt h2] at herr ⊢
    by_cases hcf : o.createFails temp = true
    · rw [if_pos hcf] at herr ⊢
      exact hk2
    · rw [if_neg (by simp [hcf])] at herr ⊢
      dsimp only [] at herr ⊢
      have hk3 : ((temp, (⟨stype, family, maxElem, []⟩ : SetData)) :: k2).lookup name
          = k.lookup name := by
        rw [lookup_cons_ne name temp _ k2 hnt]
        exact hk2
      have h3temp : ((temp, (⟨stype, family, maxElem, []⟩ : SetData)) :: k2).lookup temp
          = some ⟨stype, family, maxElem, []⟩ := by
        simp [List.lookup]
      rcases hred4 : (if entries.isEmpty then
            ((.ok 0 : Except Err Nat),
              ((temp, (⟨stype, family, maxElem, []⟩ : SetData)) :: k2), ([] : List Cmd))
          else add_many o temp entries
            ((temp, (⟨stype, family, maxElem, []⟩ : SetData)) :: k2)) with ⟨re4, k4, t4⟩

      have hk4 : k4.lookup name = k.lookup name := by
        by_cases hemp : entries.isEmpty = true
        · rw [if_pos hemp] at hred4
          injection hred4 with h1 h2'
          injection h2' with h2' h3'
          rw [← h2']
          exact hk3
        · rw [if_neg hemp,
            add_many_found o temp entries _ _ (by revert hemp; cases entries.isEmpty <;> simp)
              h3temp] at hred4
          by_cases hrf : o.restoreFails = true
          · rw [if_pos hrf] at hred4
            injection hred4 with h1 h2'
            injection h2' with h2' h3'
            rw [← h2', lookup_setStore_ne name temp _ _ hnt]
            exact hk3
          · rw [if_neg hrf] at hred4
            injection hred4 with h1 h2'
            injection h2' with h2' h3'
            rw [← h2', lookup_setStore_ne name temp _ _ hnt]
            exact hk3
      have h4temp : ∀ n4, re4 = .ok n4 → (k4.lookup temp).isSome = true := by
        intro n4 _
        by_cases hemp : entries.isEmpty = true
        · rw [if_pos hemp] at hred4
          injection hred4 with h1 h2'
          injection h2' with h2' h3'
          rw [← h2', h3temp]
          rfl
        · rw [if_neg hemp,
            add_many_found o temp entries _ _ (by revert hemp; cases entries.isEmpty <;> simp)
              h3temp] at hred4
          by_cases hrf : o.restoreFails = true
          · rw [if_pos hrf] at hred4
            injection hred4 with h1 h2'
            injection h2' with h2' h3'
            rw [← h2', lookup_setStore_eq temp _ _ (by rw [h3temp]; rfl)]
            rfl
          · rw [if_neg hrf] at hred4
            injection hred4 with h1 h2'
            injection h2' with h2' h3'
            rw [← h2', lookup_setStore_eq temp _ _ (by rw [h3temp]; rfl)]
            rfl
      rw [hred4] at herr
      cases re4 with
      | error e4 =>
        exact hk4
      | ok n4 =>
        dsimp only [] at herr ⊢
        have h4t := h4temp n4 rfl
        obtain ⟨dt, hdt⟩ : ∃ dt, k4.lookup temp = some dt :=
          Option.isSome_iff_exists.mp h4t
        obtain ⟨dv, hdv⟩ : ∃ dv, k4.lookup name = some dv := by
          rw [hk4]
          exact Option.isSome_iff_exists.mp hks
        rw [swapSets_found o temp name k4 dt dv hdt hdv] at herr ⊢
        by_cases hsw : o.swapFails = true ∨ dt.stype ≠ dv.stype ∨ dt.family ≠ dv.family
        · rw [if_pos (by tauto)] at herr ⊢
          exact hk4
        · rw [if_neg (by tauto)] at herr ⊢
          dsimp only [] at herr ⊢
          have h5t : ((setStore (setStore k4 temp dv) name dt).lookup temp).isSome
              = true := by
            rw [lookup_setStore_ne temp name dt _ (fun he => hnt he.symm),
              lookup_setStore_eq temp dv k4 h4t]
            rfl
          rw [destroy_exists temp _ true hvt h5t] at herr ⊢
          cases herr

/-- Claim C1 counterexample: for the valid 30-character target name
whose staging name collides with the target itself, a bulk-load failure
before the swap destroys the target: after the call the target set is
gone rather than holding its previous contents. -/
theorem claim_C1_counterexample :
    validate_list_name "aaaaaaaaaaaaaaaaaaaaaaaaaa_tmp" = .ok true ∧
    stagingName "aaaaaaaaaaaaaaaaaaaaaaaaaa_tmp" = "aaaaaaaaaaaaaaaaaaaaaaaaaa_tmp" ∧
    (updateSet ⟨fun _ => false, true, 0, false⟩ "aaaaaaaaaaaaaaaaaaaaaaaaaa_tmp"
        ["5.6.7.8/32"] "hash:net" "inet" 65536
        [("aaaaaaaaaaaaaaaaaaaaaaaaaa_tmp",
          ⟨"hash:net", "inet", 65536, ["1.2.3.4"]⟩)]).1
      = .error (.ipset "ipset command failed: restore") ∧
    (updateSet ⟨fun _ => false, true, 0, false⟩ "aaaaaaaaaaaaaaaaaaaaaaaaaa_tmp"
        ["5.6.7.8/32"] "hash:net" "inet" 65536
        [("aaaaaaaaaaaaaaaaaaaaaaaaaa_tmp",
          ⟨"hash:net", "inet", 65536, ["1.2.3.4"]⟩)]).2.1.lookup
        "aaaaaaaaaaaaaaaaaaaaaaaaaa_tmp" = none := by
  decide

/-- Claim C1 (amended): provided the staging name differs from the
target name (which fails only for 30-character targets), a failure of
`IPSetManager.update` at any step on an existing target leaves the
target's stored set exactly as before the call, and no staging set
remains after the cleanup path runs. -/
theorem claim_C1 (o : Oracle) (name : String) (entries : List String)
    (stype family : String) (maxElem : Nat) (k : KState) (d : SetData) (e : Err)
    (hbody : lnameBody name.data = true)
    (hst : stagingName name ≠ name)
    (hk : k.lookup name = some d)
    (herr : (updateSet o name entries stype family maxElem k).1 = .error e) :
    (updateSet o name entries stype family maxElem k).2.1.lookup name = some d ∧
    (updateSet o name entries stype family maxElem k).2.1.lookup (stagingName name)
      = none := by
  have hval := lnameBody_validate name hbody
  have hvt := stagingName_validate name hbody
  have hks : (k.lookup name).isSome = true := by rw [hk]; rfl
  have hnt : name ≠ stagingName name := fun he => hst he.symm
  unfold updateSet at herr ⊢
  rw [hval] at herr ⊢
  dsimp only [] at herr ⊢
  rcases hredT : updateTry o name (stagingName name) entries stype family maxElem k
    with ⟨reT, kX, tX⟩
  rw [hredT] at herr
  cases reT with
  | ok n =>
    dsimp only [] at herr
    cases herr
  | error eT =>
    dsimp only [] at herr ⊢
    obtain ⟨hc1, hc2, hc3⟩ := cleanupTemp_spec eT (stagingName name) kX tX true hvt
    refine ⟨?_, hc2⟩
    rw [hc3 name hnt]
    have hp := updateTry_error_preserves o name (stagingName name) entries stype family
      maxElem k eT hnt hks hvt (by rw [hredT])
    rw [hredT] at hp
    dsimp only [] at hp
    rw [hp, hk]

theorem claim_C1_witness :
    (updateSet ⟨fun _ => false, true, 0, false⟩ "blk" ["5.6.7.8/32"] "hash:net" "inet"
        65536 [("blk", ⟨"hash:net", "inet", 65536, ["1.2.3.4"]⟩)]).1
      = .error (.ipset "ipset command failed: restore") ∧
    (updateSet ⟨fun _ => false, true, 0, false⟩ "blk" ["5.6.7.8/32"] "hash:net" "inet"
        65536 [("blk", ⟨"hash:net", "inet", 65536, ["1.2.3.4"]⟩)]).2.1.lookup "blk"
      = some ⟨"hash:net", "inet", 65536, ["1.2.3.4"]⟩ ∧
    (updateSet ⟨fun _ => false, true, 0, false⟩ "blk" ["5.6.7.8/32"] "hash:net" "inet"
        65536 [("blk", ⟨"hash:net", "inet", 65536, ["1.2.3.4"]⟩)]).2.1.lookup
        (stagingName "blk") = none :=
  ⟨by decide,
   (claim_C1 ⟨fun _ => false, true, 0, false⟩ "blk" ["5.6.7.8/32"] "hash:net" "inet"
      65536 [("blk", ⟨"hash:net", "inet", 65536, ["1.2.3.4"]⟩)]
      ⟨"hash:net", "inet", 65536, ["1.2.3.4"]⟩
      (.ipset "ipset command failed: restore")
      (by decide) (by decide) (by decide) (by decide)).1,
   (claim_C1 ⟨fun _ => false, true, 0, false⟩ "blk" ["5.6.7.8/32"] "hash:net" "inet"
      65536 [("blk", ⟨"hash:net", "inet", 65536, ["1.2.3.4"]⟩)]
      ⟨"hash:net", "inet", 65536, ["1.2.3.4"]⟩
      (.ipset "ipset command failed: restore")
      (by decide) (by decide) (by decide) (by decide)).2⟩

theorem parseParts_spec (num : Nat) :
    ∀ (parts : List (List Char)) (acc : List String × List String),
      parseParts num parts acc
        = (acc.1 ++ ((parts.filter (fun p => ¬ p.isEmpty)).map
              (fun t => (num, (⟨t⟩ : String)))).filterMap okEntryOf,
           acc.2 ++ ((parts.filter (fun p => ¬ p.isEmpty)).map
              (fun t => (num, (⟨t⟩ : String)))).filterMap errEntryOf) := by
  intro parts
  induction parts with
  | nil => intro acc; simp [parseParts]
  | cons p ps ih =>
    intro acc
    rw [show parseParts num (p :: ps) acc
        = parseParts num ps (if p.isEmpty then acc
            else match parse_ip_entry ⟨p⟩ with
              | .ok (e, _) => (acc.1 ++ [e], acc.2)
              | .error m => (acc.1, acc.2 ++ [fmtLineErr num m])) from rfl]
    by_cases hp : p.isEmpty = true
    · rw [if_pos hp, ih acc, List.filter_cons_of_neg (by simp [hp])]
    · rw [if_neg hp, List.filter_cons_of_pos (by simp [hp]), List.map_cons]
      cases hpe : parse_ip_entry (⟨p⟩ : String) with
      | ok pr =>
        obtain ⟨e, fam⟩ := pr
        have hok : okEntryOf (num, (⟨p⟩ : String)) = some e := by
          unfold okEntryOf
          rw [hpe]
        have her : errEntryOf (num, (⟨p⟩ : String)) = none := by
          unfold errEntryOf
          rw [hpe]
        dsimp only []
        rw [ih _]
        rw [List.filterMap_cons, List.filterMap_cons, hok, her]
        simp [List.append_assoc]
      | error m =>
        have hok : okEntryOf (num, (⟨p⟩ : String)) = none := by
          unfold okEntryOf
          rw [hpe]
        have her : errEntryOf (num, (⟨p⟩ : String)) = some (fmtLineErr num m) := by
          unfold errEntryOf
          rw [hpe]
        dsimp only []
        rw [ih _]
        rw [List.filterMap_cons, List.filterMap_cons, hok, her]
        simp [List.append_assoc]

theorem parse_lines_spec :
    ∀ (L : List (Nat × List Char)) (acc : List String × List String),
      L.foldl (fun acc p =>
          let line := trimL p.2
          if line.isEmpty then acc
          else if startsWithCommentChar line then acc
          else parseParts p.1 (split_entries line) acc) acc
        = (acc.1 ++ (L.flatMap (fun p => (lineTokens p.2).map
              (fun t => (p.1, (⟨t⟩ : String))))).filterMap okEntryOf,
           acc.2 ++ (L.flatMap (fun p => (lineTokens p.2).map
              (fun t => (p.1, (⟨t⟩ : String))))).filterMap errEntryOf) := by
  intro L
  induction L with
  | nil => intro acc; simp
  | cons q Q ih =>
    intro acc
    rw [List.foldl_cons]
    dsimp only []
    rw [List.flatMap_cons]
    by_cases h1 : (trimL q.2).isEmpty = true
    · rw [if_pos h1, ih acc]
      rw [show lineTokens q.2 = [] from by unfold lineTokens; rw [if_pos h1]]
      simp
    · rw [if_neg h1]
      by_cases h2 : startsWithCommentChar (trimL q.2) = true
      · rw [if_pos h2, ih acc]
        rw [show lineTokens q.2 = [] from by
          unfold lineTokens
          rw [if_neg h1, if_pos h2]]
        simp
      · rw [if_neg h2, parseParts_spec q.1 (split_entries (trimL q.2)) acc, ih _]
        rw [show lineTokens q.2
            = (split_entries (trimL q.2)).filter (fun p => ¬ p.isEmpty) from by
          unfold lineTokens
          rw [if_neg h1, if_neg h2]]
        simp [List.filterMap_append, List.append_assoc]

theorem parse_ip_list_characterization (content : String) :
    parse_ip_list content
      = ((numberedTokens content).filterMap okEntryOf,
         (numberedTokens content).filterMap errEntryOf) := by
  unfold parse_ip_list numberedTokens
  rw [parse_lines_spec]
  simp

theorem pairwise_trivial {α : Type} {R : α → α → Prop} (h : ∀ a b, R a b) :
    ∀ l : List α, l.Pairwise R
  | [] => .nil
  | x :: xs => .cons (fun y _ => h x y) (pairwise_trivial h xs)

theorem numberedTokens_bound (i : Nat) :
    ∀ ls : List (List Char),
      ∀ q ∈ (List.enumFrom i ls).flatMap (fun p => (lineTokens p.2).map
          (fun t => (p.1, (⟨t⟩ : String)))), i ≤ q.1 := by
  intro ls
  induction ls generalizing i with
  | nil => intro q hq; simp [List.enumFrom] at hq
  | cons l ls ih =>
    intro q hq
    rw [show List.enumFrom i (l :: ls) = (i, l) :: List.enumFrom (i + 1) ls from rfl,
      List.flatMap_cons, List.mem_append] at hq
    rcases hq with hq | hq
    · simp only [List.mem_map] at hq
      obtain ⟨t, _, rfl⟩ := hq
      exact le_refl i
    · exact Nat.le_of_succ_le (ih (i + 1) q hq)

theorem numberedTokens_sorted (i : Nat) :
    ∀ ls : List (List Char),
      List.Pairwise (fun a b => a.1 ≤ b.1)
        ((List.enumFrom i ls).flatMap (fun p => (lineTokens p.2).map
          (fun t => (p.1, (⟨t⟩ : String))))) := by
  intro ls
  induction ls generalizing i with
  | nil => simp [List.enumFrom]
  | cons l ls ih =>
    rw [show List.enumFrom i (l :: ls) = (i, l) :: List.enumFrom (i + 1) ls from rfl,
      List.flatMap_cons]
    rw [List.pairwise_append]
    refine ⟨?_, ih (i + 1), ?_⟩
    · rw [List.pairwise_map]
      exact pairwise_trivial (fun a b => le_refl i) _
    · intro a ha b hb
      simp only [List.mem_map] at ha
      obtain ⟨t, _, rfl⟩ := ha
      exact Nat.le_of_succ_le (numberedTokens_bound (i + 1) ls b hb)

/-- Claim C3: parsing never aborts on a bad token: the result of
`_parse_ip_list` pairs exactly one canonical entry per token that
canonicalizes and one formatted `"Line <n>: <message>"` error (with `n`
the 1-indexed line number) per token that fails, accumulated over all
tokens; in particular the three-line example yields the two entries and
exactly the one error for line 2. -/
theorem claim_C3 :
    (∀ content : String,
      parse_ip_list content
        = ((numberedTokens content).filterMap okEntryOf,
           (numberedTokens content).filterMap errEntryOf)) ∧
    parse_ip_list "192.168.1.0/24\ninvalid\n10.0.0.0/8"
      = (["192.168.1.0/24", "10.0.0.0/8"],
         ["Line 2: Invalid IP address: invalid"]) :=
  ⟨parse_ip_list_characterization, by decide⟩

/-- Claim C10: parsing preserves input order: entries are the canonical
forms of the successful tokens in source order (top-to-bottom,
left-to-right, one entry per token), errors are the formatted failures
in the same order, and the token line numbers are non-decreasing, so the
errors are ordered by line number. -/
theorem claim_C10 :
    (∀ content : String,
      (parse_ip_list content).1 = (numberedTokens content).filterMap okEntryOf ∧
      (parse_ip_list content).2 = (numberedTokens content).filterMap errEntryOf) ∧
    (∀ content : String,
      List.Pairwise (fun a b => a.1 ≤ b.1) (numberedTokens content)) :=
  ⟨fun content => by rw [parse_ip_list_characterization content]; exact ⟨rfl, rfl⟩,
   fun content => numberedTokens_sorted 1 (splitlinesL content.data)⟩
